import Mathlib

/-!
Shallow embedding of the vendor-quoting backend of the `emart` repository.

The definitions below are translated from the JavaScript sources:
  * `src/models/VendorQuoteRequest.js`      (multi-item quote request schema, `isTokenValid`)
  * `src/controllers/vendorQuoteController.js`
      - `submitQuote`                (legacy single-item submission, IP rate limiting)
      - `getMultiItemQuoteByToken`   (token-gated read)
      - `submitMultiItemQuote`       (token-gated submission)
  * `src/routes/vendorroutes.js`
      - `GET /vendor-quotes`         (grouping of all requests by order)
      - `GET /vendor-quotes/:id`     (dual-schema quote lookup)

Modelling conventions:
  * JS numbers are rationals `ℚ`; `Number(x)` / `parseFloat(x)` results that are
    not finite numbers are the `JsNum.nan` constructor.
  * Timestamps (`Date` values) are `Nat` milliseconds.  A `Date` object is always
    truthy in JS, so `x || y` on a nullable date field only falls back on `null`,
    which `Option.getD` models exactly.
  * The Mongo document store is a `List` of documents; `findOne` is `List.find?`,
    `countDocuments` counts a `List.filter`, `save` of a fetched-and-mutated
    document writes back by `_id` (`saveById`), `create` appends.
  * JS `Map` (insertion-ordered, `set` updates in place) is an association list
    `List (String × V)` with `jsMapUpdate` / `mapFind?`.
  * Truthiness of a JS string is non-emptiness; of a nullable string field it is
    `some s` with `s ≠ ""`.
-/

namespace Emart

/-- Truthiness of a nullable JS string (`null`, `undefined` and `""` are falsy). -/
def jsStrTruthy : Option String → Bool
  | none => false
  | some s => s ≠ ""

/-- `x || null` on a nullable JS string: keep it only when truthy. -/
def jsOptStr (o : Option String) : Option String :=
  if jsStrTruthy o then o else none

/-- `x ? String(x).trim().substring(0, n) : null` on a nullable JS string. -/
def jsTrimTake (o : Option String) (n : Nat) : Option String :=
  match o with
  | none => none
  | some s => if s = "" then none else some ((s.trim).take n)

/-- Result of coercing a JS value to a number (`Number(...)` / `parseFloat(...)`):
either a finite rational or not-a-number. -/
inductive JsNum where
  | nan
  | num (q : ℚ)
deriving DecidableEq, Repr

/-- `status` enumeration of the `VendorQuoteRequest` schema
(`src/models/VendorQuoteRequest.js`). -/
inductive QStatus where
  | pending
  | submitted
  | approved
  | accepted
  | rejected
deriving DecidableEq, Repr

/-- Embedded item of a `VendorQuoteRequest` (`vendorQuoteRequestItemSchema`). -/
structure QuoteItem where
  productId : String
  variantId : Option String := none
  productName : Option String := none
  variantName : Option String := none
  image : Option String := none
  requestedQty : ℚ
  vendorPrice : Option ℚ := none
  vendorRemark : Option String := none
deriving DecidableEq, Repr

/-- A stored `VendorQuoteRequest` document (`vendorQuoteRequestSchema`,
with the mongoose `timestamps: true` field `createdAt`). -/
structure QuoteRequest where
  id : String
  orderId : String
  vendorId : Option String := none
  vendorName : Option String := none
  vendorEmail : Option String := none
  items : List QuoteItem
  status : QStatus := .pending
  token : String
  tokenExpiresAt : Option Nat
  submittedAt : Option Nat := none
  createdAt : Nat := 0
deriving DecidableEq, Repr

/-- The `productId::variantId` composite key (`${productId}::${variantId || ''}`);
`it.variantId || ''` collapses `null` and `""` to `""`, which `Option.getD ""`
reproduces. -/
def keyOf (productId : String) (variantId : Option String) : String :=
  productId ++ "::" ++ variantId.getD ""

/-- Composite key of a stored item. -/
def itemKey (it : QuoteItem) : String :=
  keyOf it.productId it.variantId

/-- `vendorQuoteRequestSchema.methods.isTokenValid` (VendorQuoteRequest.js:130-134):
`if (!this.tokenExpiresAt) return false; if (this.status === 'submitted') return false;
return this.tokenExpiresAt > new Date();` -/
def isTokenValid (r : QuoteRequest) (now : Nat) : Bool :=
  match r.tokenExpiresAt with
  | none => false
  | some t => if r.status = .submitted then false else decide (now < t)

/-- `VendorQuoteRequest.findOne({ token })`. -/
def findByToken (store : List QuoteRequest) (token : String) : Option QuoteRequest :=
  store.find? (fun r => r.token == token)

/-- `requestDoc.save()` for a document previously fetched from `store`:
the write goes back to the document with the same `_id`. -/
def saveById (store : List QuoteRequest) (doc : QuoteRequest) : List QuoteRequest :=
  store.map (fun r => if r.id = doc.id then doc else r)

/-- The `request` object of the 200 response of `getMultiItemQuoteByToken`
(it exposes everything except `token` and `submittedAt`). -/
structure RequestDetail where
  id : String
  orderId : String
  vendorId : Option String
  vendorName : Option String
  vendorEmail : Option String
  items : List QuoteItem
  status : QStatus
  tokenExpiresAt : Option Nat
  createdAt : Nat
deriving DecidableEq, Repr

/-- Outcome of `GET /api/vendor/quote-request/:token`. -/
inductive GetByTokenResult where
  | notFound
  | gone (message : String) (statusField : String)
  | ok (request : RequestDetail)
deriving DecidableEq, Repr

/-- `const isExpired = !requestDoc.tokenExpiresAt || requestDoc.tokenExpiresAt <= new Date()`. -/
def isExpiredAt (r : QuoteRequest) (now : Nat) : Bool :=
  match r.tokenExpiresAt with
  | none => true
  | some t => decide (t ≤ now)

/-- `exports.getMultiItemQuoteByToken` (vendorQuoteController.js:717-754). -/
def getMultiItemQuoteByToken (store : List QuoteRequest) (token : String) (now : Nat) :
    GetByTokenResult :=
  match findByToken store token with
  | none => .notFound
  | some r =>
    let isExpired := isExpiredAt r now
    let alreadySubmitted : Bool := r.status = .submitted
    if isExpired || alreadySubmitted then
      .gone (if alreadySubmitted then "Quote already submitted" else "Quote request has expired")
            (if alreadySubmitted then "submitted" else "expired")
    else
      .ok ⟨r.id, r.orderId, r.vendorId, r.vendorName, r.vendorEmail, r.items, r.status,
           r.tokenExpiresAt, r.createdAt⟩

/-- One element of the `items` array of the submission payload, after JS number
coercion of `vendorPrice` (`none` = the field was `undefined`/`null`;
`productId = ""` = the field was falsy). -/
structure SubmittedItem where
  productId : String := ""
  variantId : Option String := none
  vendorPrice : Option JsNum := none
  vendorRemark : Option String := none
deriving DecidableEq, Repr

/-- Value stored in the controller's `priceMap`. -/
structure PriceEntry where
  price : ℚ
  remark : Option String
deriving DecidableEq, Repr

/-- JS `Map.set`-style update of an insertion-ordered association list:
replace in place when the key exists, append otherwise. -/
def jsMapUpdate {V : Type} (k : String) (f : Option V → V) :
    List (String × V) → List (String × V)
  | [] => [(k, f none)]
  | (k', v) :: rest =>
    if k' = k then (k, f (some v)) :: rest else (k', v) :: jsMapUpdate k f rest

/-- JS `Map.get`. -/
def mapFind? {V : Type} (k : String) (m : List (String × V)) : Option V :=
  (m.find? (fun p => p.1 == k)).map (·.2)

/-- The validation loop of `submitMultiItemQuote` (vendorQuoteController.js:796-823):
walk the payload, reject on the first invalid item, otherwise accumulate the
`priceMap` (later duplicates overwrite earlier ones, as `Map.set` does). -/
def buildPriceMap : List SubmittedItem → List (String × PriceEntry) →
    Except String (List (String × PriceEntry))
  | [], m => .ok m
  | it :: rest, m =>
    if it.productId = "" then
      .error "Each submitted item must include a productId"
    else
      match it.vendorPrice with
      | none => .error "Each submitted item must include vendorPrice"
      | some .nan => .error "vendorPrice must be greater than 0"
      | some (.num q) =>
        if q ≤ 0 then
          .error "vendorPrice must be greater than 0"
        else
          buildPriceMap rest
            (jsMapUpdate (keyOf it.productId it.variantId)
              (fun _ => ⟨q, jsTrimTake it.vendorRemark 500⟩) m)

/-- The per-item update of `requestDoc.items` (vendorQuoteController.js:826-837):
`{...existing.toObject(), vendorPrice, vendorRemark}` when the key is in the map,
the unchanged item otherwise. -/
def updateItem (m : List (String × PriceEntry)) (it : QuoteItem) : QuoteItem :=
  match mapFind? (itemKey it) m with
  | none => it
  | some pe => { it with vendorPrice := some pe.price, vendorRemark := pe.remark }

/-- The successful-submission mutation of the fetched document
(items rewritten, `status = 'submitted'`, `submittedAt = new Date()`). -/
def applySubmission (r : QuoteRequest) (m : List (String × PriceEntry)) (now : Nat) :
    QuoteRequest :=
  { r with items := r.items.map (updateItem m), status := .submitted, submittedAt := some now }

/-- Outcome of `POST /api/vendor/quote-request/:token/submit`. -/
inductive SubmitResult where
  | badRequest (message : String)
  | notFound
  | gone (message : String)
  | ok (request : QuoteRequest)
deriving DecidableEq, Repr

/-- `submitMultiItemQuote` after the `findOne({ token })` read: the gate,
the payload validation and the write all use the document seen by the read,
while the write (`save`) lands on the current store.  Splitting the handler at
the read makes the read-modify-write structure of the source explicit. -/
def submitAfterRead (store : List QuoteRequest) (found : Option QuoteRequest)
    (items : List SubmittedItem) (now : Nat) : SubmitResult × List QuoteRequest :=
  match found with
  | none => (.notFound, store)
  | some r =>
    if isTokenValid r now then
      match buildPriceMap items [] with
      | .error msg => (.badRequest msg, store)
      | .ok m =>
        let updated := applySubmission r m now
        (.ok updated, saveById store updated)
    else
      (.gone (if r.status = .submitted then "Quote already submitted"
              else "Quote request has expired"), store)

/-- `exports.submitMultiItemQuote` (vendorQuoteController.js:768-857).
Note the order of the source: the items-array shape check
(`!Array.isArray(items) || items.length === 0`) runs BEFORE the token lookup. -/
def submitMultiItemQuote (store : List QuoteRequest) (token : String)
    (items : List SubmittedItem) (now : Nat) : SubmitResult × List QuoteRequest :=
  if items.isEmpty then
    (.badRequest "Items array is required", store)
  else
    submitAfterRead store (findByToken store token) items now

/-! ### `GET /vendor-quotes` — grouping all quote requests by order
(src/routes/vendorroutes.js:409-493) -/

/-- One element of a product's `vendorQuotes` array
(vendorroutes.js:462-471). -/
structure VendorQuoteView where
  requestId : String
  vendorId : Option String
  vendorName : String
  vendorEmail : Option String
  price : Option ℚ
  message : String
  status : QStatus
  submittedAt : Nat
deriving DecidableEq, Repr

/-- The per-`(productId,variantId)` entry of an order group
(vendorroutes.js:450-456). -/
structure ProductGroup where
  productId : String
  name : String
  image : String
  quantity : ℚ
  vendorQuotes : List VendorQuoteView
deriving DecidableEq, Repr

/-- One entry of the order map (vendorroutes.js:429-434); `products` is the
insertion-ordered JS `Map` keyed by `productId::variantId`. -/
structure OrderGroup where
  id : String
  orderId : String
  products : List (String × ProductGroup)
  createdAt : Nat
deriving DecidableEq, Repr

/-- The vendor-quote record pushed for a `(request, item)` pair
(vendorroutes.js:462-471).  `req.status || 'pending'` never falls back since the
enum is never the empty string; `req.submittedAt || req.createdAt` falls back
exactly on `null` (a `Date` object is always truthy). -/
def quoteViewOf (r : QuoteRequest) (it : QuoteItem) : VendorQuoteView :=
  { requestId := r.id
    vendorId := jsOptStr r.vendorId
    vendorName := (jsOptStr r.vendorName).getD "Unknown Vendor"
    vendorEmail := jsOptStr r.vendorEmail
    price := it.vendorPrice
    message := (jsOptStr it.vendorRemark).getD ""
    status := r.status
    submittedAt := r.submittedAt.getD r.createdAt }

/-- Fresh product entry for a key not yet in the map (vendorroutes.js:450-456);
`item.productId || ''` and `item.requestedQty || 0` are identities on a string
and a rational. -/
def initProduct (it : QuoteItem) : ProductGroup :=
  { productId := it.productId
    name := (jsOptStr it.productName).getD "Unknown Product"
    image := (jsOptStr it.image).getD ""
    quantity := it.requestedQty
    vendorQuotes := [] }

/-- Processing of one item of one request against the products map
(vendorroutes.js:446-472). -/
def addItemQuote (r : QuoteRequest) (ps : List (String × ProductGroup)) (it : QuoteItem) :
    List (String × ProductGroup) :=
  jsMapUpdate (itemKey it)
    (fun old =>
      let pg := old.getD (initProduct it)
      { pg with vendorQuotes := pg.vendorQuotes ++ [quoteViewOf r it] })
    ps

/-- `const orderId = req.orderId || 'UNKNOWN'` (vendorroutes.js:426). -/
def orderKeyOf (r : QuoteRequest) : String :=
  if r.orderId = "" then "UNKNOWN" else r.orderId

/-- Fresh order entry (vendorroutes.js:429-434). -/
def initOrderEntry (r : QuoteRequest) : OrderGroup :=
  { id := r.id, orderId := orderKeyOf r, products := [], createdAt := r.createdAt }

/-- Folding one request into the entry of its order
(vendorroutes.js:437-472): take the later `createdAt` (and with it the `_id`),
then push one vendor-quote record per item. -/
def updateOrderEntry (r : QuoteRequest) (e : OrderGroup) : OrderGroup :=
  let e1 := if e.createdAt < r.createdAt then { e with createdAt := r.createdAt, id := r.id } else e
  { e1 with products := r.items.foldl (addItemQuote r) e1.products }

/-- Folding one request into the order map (vendorroutes.js:425-473). -/
def addRequestToMap (m : List (String × OrderGroup)) (r : QuoteRequest) :
    List (String × OrderGroup) :=
  jsMapUpdate (orderKeyOf r) (fun old => updateOrderEntry r (old.getD (initOrderEntry r))) m

/-- Stable insertion of a request into a list sorted by `createdAt` descending. -/
def insertDesc (r : QuoteRequest) : List QuoteRequest → List QuoteRequest
  | [] => [r]
  | x :: xs => if x.createdAt < r.createdAt then r :: x :: xs else x :: insertDesc r xs

/-- `VendorQuoteRequest.find({}).sort({ createdAt: -1 })`. -/
def sortByCreatedAtDesc (l : List QuoteRequest) : List QuoteRequest :=
  l.foldr insertDesc []

/-- `GET /vendor-quotes` (vendorroutes.js:409-493): fetch all requests newest
first and fold them into the order map; the route then returns the map's values
in insertion order (the inner products `Map` is likewise serialized to its
values, which is presentation only: each `OrderGroup` keeps the keyed map). -/
def listAllVendorQuotesGroupedByOrder (store : List QuoteRequest) : List OrderGroup :=
  ((sortByCreatedAtDesc store).foldl addRequestToMap []).map (·.2)

/-! ### `GET /vendor-quotes/:id` — dual-schema quote lookup
(src/routes/vendorroutes.js:541-629) -/

/-- `status` enumeration of the legacy `VendorQuote` schema. -/
inductive LStatus where
  | pending
  | reviewed
  | accepted
  | rejected
deriving DecidableEq, Repr

/-- A stored legacy `VendorQuote` document (models/VendorQuote.js, the schema
actually used by the controller: `itemId`, product snapshot, vendor contact,
`quotedPrice`, `remarks`, `ipAddress`, `status`, `submittedAt`). -/
structure LegacyQuote where
  id : String
  itemId : String
  productName : Option String := none
  productImage : Option String := none
  vendorName : String
  vendorEmail : String
  vendorPhone : Option String := none
  quotedPrice : ℚ
  remarks : Option String := none
  adminNotes : Option String := none
  ipAddress : String
  status : LStatus := .pending
  submittedAt : Nat
  createdAt : Nat := 0
deriving DecidableEq, Repr

/-- `id.match(/^[0-9a-fA-F]{24}$/)` (vendorroutes.js:545). -/
def isValidObjectId (s : String) : Bool :=
  s.length == 24 && s.toList.all (fun c =>
    c.isDigit || ('a' ≤ c && c ≤ 'f') || ('A' ≤ c && c ≤ 'F'))

/-- Uniform product row of the normalized quote detail. -/
structure NormProduct where
  productId : String
  productName : String
  productImage : String
  variantName : String
  quantity : ℚ
  vendorPrice : ℚ
  totalPrice : ℚ
  vendorRemark : String
deriving DecidableEq, Repr

/-- Normalized quote detail returned for both schemas. -/
structure NormQuote where
  id : String
  vendorName : String
  vendorEmail : String
  vendorPhone : Option String
  totalAmount : ℚ
  products : List NormProduct
  statusText : String
  createdAt : Nat
  submittedAt : Option Nat
deriving DecidableEq, Repr

/-- Rendering of a multi-item request status for the JSON response. -/
def qStatusText : QStatus → String
  | .pending => "pending"
  | .submitted => "submitted"
  | .approved => "approved"
  | .accepted => "accepted"
  | .rejected => "rejected"

/-- Rendering of a legacy quote status for the JSON response. -/
def lStatusText : LStatus → String
  | .pending => "pending"
  | .reviewed => "reviewed"
  | .accepted => "accepted"
  | .rejected => "rejected"

/-- `totalAmount` of a multi-item request (vendorroutes.js:553-555): sum of
`vendorPrice * (requestedQty || 1)` over the items whose `vendorPrice` is a
number. -/
def multiTotalAmount (items : List QuoteItem) : ℚ :=
  (items.filterMap (fun it =>
    it.vendorPrice.map (fun p => p * (if it.requestedQty = 0 then 1 else it.requestedQty)))).sum

/-- Product rows of a multi-item request (vendorroutes.js:557-566);
`it.vendorPrice || 0` and `it.requestedQty || 0` are `getD 0` and the identity. -/
def multiProducts (items : List QuoteItem) : List NormProduct :=
  items.map (fun it =>
    { productId := it.productId
      productName := (jsOptStr it.productName).getD "Unknown Product"
      productImage := (jsOptStr it.image).getD ""
      variantName := (jsOptStr it.variantName).getD "Standard"
      quantity := it.requestedQty
      vendorPrice := it.vendorPrice.getD 0
      totalPrice := it.vendorPrice.getD 0 * it.requestedQty
      vendorRemark := (jsOptStr it.vendorRemark).getD "" })

/-- The `quoteType: 'multi'` response body (vendorroutes.js:568-582);
the schema has no `vendorPhone`, so `requestDoc.vendorPhone || null` is `null`. -/
def normalizeMulti (r : QuoteRequest) : NormQuote :=
  { id := r.id
    vendorName := (jsOptStr r.vendorName).getD "N/A"
    vendorEmail := (jsOptStr r.vendorEmail).getD "N/A"
    vendorPhone := none
    totalAmount := multiTotalAmount r.items
    products := multiProducts r.items
    statusText := qStatusText r.status
    createdAt := r.createdAt
    submittedAt := r.submittedAt }

/-- The `quoteType: 'single'` response body (vendorroutes.js:586-616);
`quotedPrice || 0` is the identity on a rational. -/
def normalizeSingle (q : LegacyQuote) : NormQuote :=
  { id := q.id
    vendorName := if q.vendorName = "" then "N/A" else q.vendorName
    vendorEmail := if q.vendorEmail = "" then "N/A" else q.vendorEmail
    vendorPhone := jsOptStr q.vendorPhone
    totalAmount := q.quotedPrice
    products := [{ productId := q.itemId
                   productName := (jsOptStr q.productName).getD "Unknown Product"
                   productImage := (jsOptStr q.productImage).getD ""
                   variantName := "Standard"
                   quantity := 1
                   vendorPrice := q.quotedPrice
                   totalPrice := q.quotedPrice
                   vendorRemark := (jsOptStr q.remarks).getD "" }]
    statusText := lStatusText q.status
    createdAt := q.createdAt
    submittedAt := some q.submittedAt }

/-- Outcome of `GET /vendor-quotes/:id`. -/
inductive QuoteByIdResult where
  | badRequest
  | notFound
  | ok (quoteType : String) (quote : NormQuote)
deriving DecidableEq, Repr

/-- `GET /vendor-quotes/:id` (vendorroutes.js:541-629): reject malformed ids,
try the multi-item store first, fall back to the legacy store, else 404. -/
def getQuoteById (multiStore : List QuoteRequest) (legacyStore : List LegacyQuote)
    (id : String) : QuoteByIdResult :=
  if !(isValidObjectId id) then
    .badRequest
  else
    match multiStore.find? (fun r => r.id == id) with
    | some r => .ok "multi" (normalizeMulti r)
    | none =>
      match legacyStore.find? (fun q => q.id == id) with
      | some q => .ok "single" (normalizeSingle q)
      | none => .notFound

/-! ### `POST /submit-quote` — legacy single-item submission with IP rate limit
(src/controllers/vendorQuoteController.js:9-127) -/

/-- Basket-item collaborator record, only the fields the enrichment reads. -/
structure BasketItem where
  id : String
  productName : Option String := none
  productImage : Option String := none
deriving DecidableEq, Repr

/-- The legacy submission body after JS number coercion of `quotedPrice`
(`none` = `undefined`; empty strings model falsy required fields).
The route-level express-validator checks only reject additional malformed
payloads earlier and are not modelled. -/
structure LegacyPayload where
  itemId : String := ""
  vendorName : String := ""
  vendorEmail : String := ""
  vendorPhone : Option String := none
  quotedPrice : Option JsNum := none
  remarks : Option String := none
  productName : Option String := none
  productImage : Option String := none
deriving DecidableEq, Repr

/-- The rate-limit count (vendorQuoteController.js:53-57):
`VendorQuote.countDocuments({ ipAddress, submittedAt: { $gte: now - 3600000 } })`. -/
def countRecentFromIp (store : List LegacyQuote) (ip : String) (now : Nat) : Nat :=
  (store.filter (fun q =>
    q.ipAddress == ip && decide ((now : ℤ) - 3600000 ≤ (q.submittedAt : ℤ)))).length

/-- Best-effort product enrichment from the basket collaborator
(vendorQuoteController.js:68-83). -/
def enrichProduct (basket : List BasketItem) (p : LegacyPayload) :
    Option String × Option String :=
  let nameFallback := jsOptStr p.productName
  let imageFallback := jsOptStr p.productImage
  match basket.find? (fun b => b.id == p.itemId) with
  | none => (nameFallback, imageFallback)
  | some b =>
    ((jsOptStr b.productName).orElse (fun _ => nameFallback),
     (jsOptStr b.productImage).orElse (fun _ => imageFallback))

/-- The legacy document persisted by a successful submission
(vendorQuoteController.js:86-98), for a price that parsed to `q`. -/
def legacyQuoteOf (basket : List BasketItem) (p : LegacyPayload) (q : ℚ) (ip : String)
    (now : Nat) (newId : String) : LegacyQuote :=
  { id := newId
    itemId := p.itemId
    productName := jsTrimTake (enrichProduct basket p).1 200
    productImage := (enrichProduct basket p).2.map (·.trim)
    vendorName := (p.vendorName.trim).take 100
    vendorEmail := p.vendorEmail.toLower.trim
    vendorPhone := (jsOptStr p.vendorPhone).map (·.trim)
    quotedPrice := q
    remarks := jsTrimTake p.remarks 500
    ipAddress := ip
    status := .pending
    submittedAt := now }

/-- Outcome of `POST /api/vendor/submit-quote`. -/
inductive LegacySubmitResult where
  | badRequest (message : String)
  | rateLimited (retryAfter : Nat)
  | created (quote : LegacyQuote)
deriving DecidableEq, Repr

/-- `exports.submitQuote` (vendorQuoteController.js:9-127): field checks, price
check (`isNaN || < 0`), the per-IP hourly rate limit, enrichment, then persist
with `status: 'pending'` and `submittedAt: new Date()`.  `ip` is the resolved
client address, `newId` the id Mongo assigns. -/
def submitQuote (store : List LegacyQuote) (basket : List BasketItem)
    (p : LegacyPayload) (ip : String) (now : Nat) (newId : String) :
    LegacySubmitResult × List LegacyQuote :=
  if p.itemId = "" || p.vendorName = "" || p.vendorEmail = "" || p.quotedPrice.isNone then
    (.badRequest "Missing required fields", store)
  else
    match p.quotedPrice with
    | none => (.badRequest "Missing required fields", store)
    | some .nan => (.badRequest "Price must be a valid positive number", store)
    | some (.num q) =>
      if q < 0 then
        (.badRequest "Price must be a valid positive number", store)
      else if 5 ≤ countRecentFromIp store ip now then
        (.rateLimited 3600, store)
      else
        let quote := legacyQuoteOf basket p q ip now newId
        (.created quote, store ++ [quote])

/-! ## Helper lemmas about the submission path -/

/-- A document whose status is `submitted` never passes the token gate. -/
theorem isTokenValid_false_of_submitted (r : QuoteRequest) (now : Nat)
    (h : r.status = .submitted) : isTokenValid r now = false := by
  unfold isTokenValid
  cases r.tokenExpiresAt <;> simp [h]

/-- `findByToken` only returns documents bearing the token. -/
theorem findByToken_token (store : List QuoteRequest) (token : String) (r : QuoteRequest)
    (h : findByToken store token = some r) : r.token = token := by
  have := List.find?_some h
  simpa using this

/-- `findByToken` only returns documents of the store. -/
theorem findByToken_mem (store : List QuoteRequest) (token : String) (r : QuoteRequest)
    (h : findByToken store token = some r) : r ∈ store :=
  List.mem_of_find?_eq_some h

/-- Unfolding of the token lookup over a cons cell. -/
theorem findByToken_cons (x : QuoteRequest) (l : List QuoteRequest) (token : String) :
    findByToken (x :: l) token = if x.token = token then some x else findByToken l token := by
  by_cases h : x.token = token
  · simp [findByToken, List.find?_cons_of_pos, h]
  · simp [findByToken, List.find?_cons_of_neg, h]

/-- Unfolding of the write-back over a cons cell. -/
theorem saveById_cons (x : QuoteRequest) (l : List QuoteRequest) (u : QuoteRequest) :
    saveById (x :: l) u = (if x.id = u.id then u else x) :: saveById l u := rfl

/-- After writing back a fetched document (same `_id`, same token), the token
resolves to the written document. -/
theorem findByToken_saveById (store : List QuoteRequest) (token : String) (r u : QuoteRequest)
    (h : findByToken store token = some r) (hid : u.id = r.id) (htok : u.token = token) :
    findByToken (saveById store u) token = some u := by
  induction store with
  | nil => simp [findByToken] at h
  | cons x rest ih =>
    rw [findByToken_cons] at h
    rw [saveById_cons]
    by_cases hx : x.token = token
    · have hr : x = r := by simpa [hx] using h
      have hxid : x.id = u.id := by rw [hr, ← hid]
      rw [if_pos hxid, findByToken_cons, if_pos htok]
    · have h' : findByToken rest token = some r := by simpa [hx] using h
      by_cases hxid : x.id = u.id
      · rw [if_pos hxid, findByToken_cons, if_pos htok]
      · rw [if_neg hxid, findByToken_cons, if_neg hx]
        exact ih h'

/-- If the gate rejects (token invalid on the fetched document), a non-empty
submission returns 410 with the status-dependent message and the store intact. -/
theorem submit_gone_of_invalid (store : List QuoteRequest) (token : String)
    (items : List SubmittedItem) (now : Nat) (r : QuoteRequest)
    (hfind : findByToken store token = some r) (hinv : isTokenValid r now = false)
    (hne : items ≠ []) :
    submitMultiItemQuote store token items now =
      (.gone (if r.status = .submitted then "Quote already submitted"
              else "Quote request has expired"), store) := by
  have hemp : items.isEmpty = false := by
    cases items with
    | nil => exact absurd rfl hne
    | cons a l => rfl
  simp [submitMultiItemQuote, hemp, submitAfterRead, hfind, hinv]

/-- Specialization: an already-submitted request rejects every non-empty payload
with the `AlreadySubmitted` message. -/
theorem submit_gone_of_submitted (store : List QuoteRequest) (token : String)
    (items : List SubmittedItem) (now : Nat) (r : QuoteRequest)
    (hfind : findByToken store token = some r) (hsub : r.status = .submitted)
    (hne : items ≠ []) :
    submitMultiItemQuote store token items now = (.gone "Quote already submitted", store) := by
  have := submit_gone_of_invalid store token items now r hfind
    (isTokenValid_false_of_submitted r now hsub) hne
  simpa [hsub] using this

/-- Inversion of a successful submission: the read found a pending valid
document, validation produced a price map, and the store received exactly the
updated document. -/
theorem submit_ok_inversion (store : List QuoteRequest) (token : String)
    (items : List SubmittedItem) (now : Nat) (res : QuoteRequest)
    (store₂ : List QuoteRequest)
    (h : submitMultiItemQuote store token items now = (.ok res, store₂)) :
    ∃ r m, findByToken store token = some r ∧ isTokenValid r now = true ∧
      buildPriceMap items [] = .ok m ∧ res = applySubmission r m now ∧
      store₂ = saveById store res := by
  unfold submitMultiItemQuote at h
  split at h
  · exact absurd (congrArg Prod.fst h) (by simp)
  · unfold submitAfterRead at h
    split at h
    · exact absurd (congrArg Prod.fst h) (by simp)
    · rename_i r hfind
      split at h
      · rename_i hvalid
        split at h
        · exact absurd (congrArg Prod.fst h) (by simp)
        · rename_i m hmap
          simp only [Prod.mk.injEq, SubmitResult.ok.injEq] at h
          obtain ⟨h1, h2⟩ := h
          exact ⟨r, m, hfind, hvalid, hmap, h1.symm, by rw [← h2, h1]⟩
      · exact absurd (congrArg Prod.fst h) (by simp)

/-- The updated document of a successful submission keeps the id and token of
the fetched document and carries status `submitted`. -/
theorem applySubmission_fields (r : QuoteRequest) (m : List (String × PriceEntry)) (now : Nat) :
    (applySubmission r m now).id = r.id ∧ (applySubmission r m now).token = r.token ∧
    (applySubmission r m now).status = .submitted := ⟨rfl, rfl, rfl⟩

/-! ## C1 -/

/-- C1: a stored request with status `submitted` rejects every (well-formed,
i.e. non-empty) submission payload with 410 `AlreadySubmitted` and the store is
left entirely unchanged; moreover after any successful submission, every later
submission attempt with the same token is rejected the same way, regardless of
payload. -/
theorem submitted_request_rejects_all_payloads (store : List QuoteRequest) (token : String) :
    (∀ r items now, findByToken store token = some r → r.status = .submitted → items ≠ [] →
      submitMultiItemQuote store token items now = (.gone "Quote already submitted", store))
    ∧ (∀ items now res store₂ items₂ now₂,
        submitMultiItemQuote store token items now = (.ok res, store₂) → items₂ ≠ [] →
        submitMultiItemQuote store₂ token items₂ now₂ =
          (.gone "Quote already submitted", store₂)) := by
  constructor
  · intro r items now hfind hsub hne
    exact submit_gone_of_submitted store token items now r hfind hsub hne
  · intro items now res store₂ items₂ now₂ hok hne
    obtain ⟨r, m, hfind, _, _, hres, hstore⟩ :=
      submit_ok_inversion store token items now res store₂ hok
    have hid : res.id = r.id := by rw [hres]; rfl
    have htok : res.token = token := by
      rw [hres]
      exact findByToken_token store token r hfind
    have hfind₂ : findByToken store₂ token = some res := by
      rw [hstore]
      exact findByToken_saveById store token r res hfind hid htok
    have hsub₂ : res.status = .submitted := by rw [hres]; rfl
    exact submit_gone_of_submitted store₂ token items₂ now₂ res hfind₂ hsub₂ hne

/-- A concrete already-submitted request (for the C1 witness). -/
def sampleSubmittedRequest : QuoteRequest :=
  { id := "a", orderId := "O1", items := [{ productId := "P", requestedQty := 1 }],
    status := .submitted, token := "tok", tokenExpiresAt := some 100 }

/-- A concrete pending request (for the C1 witness). -/
def samplePendingRequest : QuoteRequest :=
  { id := "a", orderId := "O1", items := [{ productId := "P", requestedQty := 1 }],
    status := .pending, token := "tok", tokenExpiresAt := some 100 }

/-- C1 witness: a concrete submitted request rejects a concrete payload, and
after a concrete successful submission the second attempt is rejected. -/
theorem submitted_request_rejects_all_payloads_witness :
    (submitMultiItemQuote [sampleSubmittedRequest] "tok"
        [{ productId := "P", vendorPrice := some (.num 3) }] 0
      = (.gone "Quote already submitted", [sampleSubmittedRequest]))
    ∧ (∀ res store₂,
        submitMultiItemQuote [samplePendingRequest] "tok"
          [{ productId := "P", vendorPrice := some (.num 3) }] 0 = (.ok res, store₂) →
        submitMultiItemQuote store₂ "tok" [{ productId := "Q", vendorPrice := some (.num 9) }] 7 =
          (.gone "Quote already submitted", store₂)) := by
  constructor
  · exact (submitted_request_rejects_all_payloads [sampleSubmittedRequest] "tok").1
      sampleSubmittedRequest _ 0 rfl rfl (by decide)
  · intro res store₂ hok
    exact (submitted_request_rejects_all_payloads [samplePendingRequest] "tok").2
      _ 0 res store₂ _ 7 hok (by decide)

/-! ## C3 -/

/-- C3: `getByToken` yields exactly one of three outcomes: 404 when no request
bears the token; 410 with a discriminator (`'submitted'` when already
submitted, `'expired'` otherwise) when a request is found but invalid
(`status = 'submitted'` or `tokenExpiresAt ≤ now`); 200 with the full request
detail when found and valid (`status ≠ 'submitted'` and `tokenExpiresAt > now`). -/
theorem getByToken_trichotomy (store : List QuoteRequest) (token : String) (now : Nat) :
    (findByToken store token = none → getMultiItemQuoteByToken store token now = .notFound)
    ∧ (∀ r t, findByToken store token = some r → r.tokenExpiresAt = some t →
        ((r.status = .submitted ∨ t ≤ now) →
          getMultiItemQuoteByToken store token now =
            .gone (if r.status = .submitted then "Quote already submitted"
                   else "Quote request has expired")
                  (if r.status = .submitted then "submitted" else "expired"))
        ∧ (r.status ≠ .submitted → now < t →
            getMultiItemQuoteByToken store token now =
              .ok ⟨r.id, r.orderId, r.vendorId, r.vendorName, r.vendorEmail, r.items, r.status,
                   r.tokenExpiresAt, r.createdAt⟩)) := by
  constructor
  · intro h
    simp [getMultiItemQuoteByToken, h]
  · intro r t hfind hexp
    constructor
    · intro hbad
      by_cases hsub : r.status = .submitted
      · simp [getMultiItemQuoteByToken, hfind, hsub]
      · have ht : t ≤ now := hbad.resolve_left hsub
        simp [getMultiItemQuoteByToken, hfind, isExpiredAt, hexp, ht, hsub]
    · intro hsub ht
      have hexp' : isExpiredAt r now = false := by
        simp [isExpiredAt, hexp]
        omega
      simp [getMultiItemQuoteByToken, hfind, hexp', hsub]

/-- C3 witness: the three outcomes at concrete inputs. -/
theorem getByToken_trichotomy_witness :
    getMultiItemQuoteByToken [] "absent" 0 = .notFound
    ∧ getMultiItemQuoteByToken [sampleSubmittedRequest] "tok" 0 =
        .gone "Quote already submitted" "submitted"
    ∧ getMultiItemQuoteByToken [samplePendingRequest] "tok" 0 =
        .ok ⟨"a", "O1", none, none, none, [{ productId := "P", requestedQty := 1 }],
             .pending, some 100, 0⟩ := by
  refine ⟨(getByToken_trichotomy [] "absent" 0).1 rfl, ?_, ?_⟩
  · exact (((getByToken_trichotomy [sampleSubmittedRequest] "tok" 0).2
      sampleSubmittedRequest 100 rfl rfl).1 (Or.inl rfl)).trans (by decide)
  · exact ((getByToken_trichotomy [samplePendingRequest] "tok" 0).2
      samplePendingRequest 100 rfl rfl).2 (by decide) (by decide)

/-! ## C10 -/

/-- C10: when a request is both expired (`tokenExpiresAt ≤ now`) and already
submitted, both the read and the submission report the already-submitted
outcome (`'submitted'` discriminator / `'Quote already submitted'` message),
never the expired one. -/
theorem submitted_takes_precedence_over_expired (store : List QuoteRequest) (token : String)
    (now : Nat) (r : QuoteRequest) (t : Nat)
    (hfind : findByToken store token = some r) (hsub : r.status = .submitted)
    (_hexp : r.tokenExpiresAt = some t) (_ht : t ≤ now) :
    getMultiItemQuoteByToken store token now = .gone "Quote already submitted" "submitted"
    ∧ ∀ items, items ≠ [] →
        submitMultiItemQuote store token items now = (.gone "Quote already submitted", store) := by
  constructor
  · simp [getMultiItemQuoteByToken, hfind, hsub]
  · intro items hne
    exact submit_gone_of_submitted store token items now r hfind hsub hne

/-- C10 witness: a concrete request that is simultaneously expired and
submitted reports the already-submitted outcome on both endpoints. -/
theorem submitted_takes_precedence_over_expired_witness :
    getMultiItemQuoteByToken [{ sampleSubmittedRequest with tokenExpiresAt := some 3 }] "tok" 5 =
      .gone "Quote already submitted" "submitted"
    ∧ submitMultiItemQuote [{ sampleSubmittedRequest with tokenExpiresAt := some 3 }] "tok"
        [{ productId := "P", vendorPrice := some (.num 2) }] 5 =
      (.gone "Quote already submitted",
       [{ sampleSubmittedRequest with tokenExpiresAt := some 3 }]) := by
  have h := submitted_takes_precedence_over_expired
    [{ sampleSubmittedRequest with tokenExpiresAt := some 3 }] "tok" 5
    { sampleSubmittedRequest with tokenExpiresAt := some 3 } 3 rfl rfl rfl (by decide)
  exact ⟨h.1, h.2 _ (by decide)⟩

/-! ## C6 (corrected) -/

/-- C6 counterexample: the items-array shape check runs BEFORE the token gate,
so with an absent token and an empty payload the endpoint answers 400
(`ValidationError`), not 404 (`NotFound`) as the claim requires. -/
theorem payload_check_precedes_gate_counterexample :
    findByToken [] "t" = none
    ∧ submitMultiItemQuote [] "t" [] 0 = (.badRequest "Items array is required", [])
    ∧ (submitMultiItemQuote [] "t" [] 0).1 ≠ .notFound := ⟨rfl, rfl, by decide⟩

/-- C6 amended: for every payload whose items array is non-empty, the token
gate runs before per-item validation and its outcome (404 absent / 410 invalid)
does not depend on the payload's contents; an empty items array is instead
rejected with 400 before the token is even looked up. -/
theorem submit_gate_before_item_validation (store : List QuoteRequest) (token : String)
    (now : Nat) :
    (∀ items, items ≠ [] →
      (findByToken store token = none →
        submitMultiItemQuote store token items now = (.notFound, store))
      ∧ (∀ r, findByToken store token = some r → isTokenValid r now = false →
          submitMultiItemQuote store token items now =
            (.gone (if r.status = .submitted then "Quote already submitted"
                    else "Quote request has expired"), store)))
    ∧ submitMultiItemQuote store token [] now = (.badRequest "Items array is required", store) := by
  constructor
  · intro items hne
    have hemp : items.isEmpty = false := by
      cases items with
      | nil => exact absurd rfl hne
      | cons a l => rfl
    constructor
    · intro habsent
      simp [submitMultiItemQuote, hemp, submitAfterRead, habsent]
    · intro r hfind hinv
      exact submit_gone_of_invalid store token items now r hfind hinv hne
  · simp [submitMultiItemQuote]

/-- C6 amended witness: gate outcomes at concrete inputs, and the 400 on an
empty payload. -/
theorem submit_gate_before_item_validation_witness :
    submitMultiItemQuote [] "t" [{ productId := "" }] 0 = (.notFound, [])
    ∧ submitMultiItemQuote [{ samplePendingRequest with tokenExpiresAt := some 3 }] "tok"
        [{ productId := "" }] 5 =
        (.gone "Quote request has expired", [{ samplePendingRequest with tokenExpiresAt := some 3 }])
    ∧ submitMultiItemQuote [samplePendingRequest] "tok" [] 0 =
        (.badRequest "Items array is required", [samplePendingRequest]) := by
  refine ⟨((submit_gate_before_item_validation [] "t" 0).1 _ (by decide)).1 rfl, ?_, ?_⟩
  · exact (((submit_gate_before_item_validation
      [{ samplePendingRequest with tokenExpiresAt := some 3 }] "tok" 5).1 _ (by decide)).2
      { samplePendingRequest with tokenExpiresAt := some 3 } rfl (by decide)).trans (by decide)
  · exact (submit_gate_before_item_validation [samplePendingRequest] "tok" 0).2

/-! ## C4 -/

/-- An item of the submission payload that the validation loop rejects:
missing `productId`, missing `vendorPrice`, non-numeric `vendorPrice`, or
`vendorPrice ≤ 0`. -/
def invalidSubmittedItem (it : SubmittedItem) : Bool :=
  (it.productId = "" : Bool) ||
    match it.vendorPrice with
    | none => true
    | some .nan => true
    | some (.num q) => decide (q ≤ 0)

/-- The validation loop fails as soon as the payload contains an invalid item. -/
theorem buildPriceMap_error_of_invalid (items : List SubmittedItem)
    (h : ∃ it ∈ items, invalidSubmittedItem it = true) :
    ∀ m, ∃ msg, buildPriceMap items m = .error msg := by
  induction items with
  | nil => simp at h
  | cons it rest ih =>
    intro m
    by_cases hpid : it.productId = ""
    · exact ⟨"Each submitted item must include a productId", by simp [buildPriceMap, hpid]⟩
    · match hvp : it.vendorPrice with
      | none =>
        exact ⟨"Each submitted item must include vendorPrice", by simp [buildPriceMap, hpid, hvp]⟩
      | some .nan =>
        exact ⟨"vendorPrice must be greater than 0", by simp [buildPriceMap, hpid, hvp]⟩
      | some (.num q) =>
        by_cases hq : q ≤ 0
        · exact ⟨"vendorPrice must be greater than 0", by simp [buildPriceMap, hpid, hvp, hq]⟩
        · have hrest : ∃ it ∈ rest, invalidSubmittedItem it = true := by
            obtain ⟨x, hx, hbad⟩ := h
            rcases List.mem_cons.mp hx with hx | hx
            · exfalso
              rw [hx] at hbad
              simp [invalidSubmittedItem, hpid, hvp, hq] at hbad
            · exact ⟨x, hx, hbad⟩
          obtain ⟨msg, hmsg⟩ := ih hrest
            (jsMapUpdate (keyOf it.productId it.variantId)
              (fun _ => ⟨q, jsTrimTake it.vendorRemark 500⟩) m)
          exact ⟨msg, by simp [buildPriceMap, hpid, hvp, hq, hmsg]⟩

/-- The validation loop succeeds when every item is valid. -/
theorem buildPriceMap_ok_of_valid (items : List SubmittedItem)
    (h : ∀ it ∈ items, invalidSubmittedItem it = false) :
    ∀ m, ∃ m', buildPriceMap items m = .ok m' := by
  induction items with
  | nil => exact fun m => ⟨m, rfl⟩
  | cons it rest ih =>
    intro m
    have hit := h it (List.mem_cons_self it rest)
    simp only [invalidSubmittedItem, Bool.or_eq_false_iff] at hit
    obtain ⟨hpid, hprice⟩ := hit
    have hpid' : ¬ it.productId = "" := by simpa using hpid
    match hvp : it.vendorPrice with
    | none => rw [hvp] at hprice; simp at hprice
    | some .nan => rw [hvp] at hprice; simp at hprice
    | some (.num q) =>
      rw [hvp] at hprice
      have hq : ¬ q ≤ 0 := by simpa using hprice
      obtain ⟨m', hm'⟩ := ih (fun x hx => h x (List.mem_cons_of_mem it hx))
        (jsMapUpdate (keyOf it.productId it.variantId)
          (fun _ => ⟨q, jsTrimTake it.vendorRemark 500⟩) m)
      exact ⟨m', by simp [buildPriceMap, hpid', hvp, hq, hm']⟩

/-- C4: with a resolvable, valid token, the submission is rejected with 400 and
no state change whenever some payload item lacks a `productId`, lacks a
`vendorPrice`, or has a non-numeric or non-positive `vendorPrice` (so 0 is
rejected), and it succeeds for any payload of items that all carry a
`productId` and a strictly positive numeric price. -/
theorem submit_item_validation (store : List QuoteRequest) (token : String)
    (items : List SubmittedItem) (now : Nat) (r : QuoteRequest)
    (hfind : findByToken store token = some r) (hvalid : isTokenValid r now = true) :
    ((∃ it ∈ items, invalidSubmittedItem it = true) →
      ∃ msg, submitMultiItemQuote store token items now = (.badRequest msg, store))
    ∧ ((∀ it ∈ items, invalidSubmittedItem it = false) → items ≠ [] →
      ∃ res, submitMultiItemQuote store token items now = (.ok res, saveById store res)) := by
  constructor
  · intro hbad
    have hne : items ≠ [] := by
      rintro rfl
      simp at hbad
    have hemp : items.isEmpty = false := by
      cases items with
      | nil => exact absurd rfl hne
      | cons a l => rfl
    obtain ⟨msg, hmsg⟩ := buildPriceMap_error_of_invalid items hbad []
    exact ⟨msg, by simp [submitMultiItemQuote, hemp, submitAfterRead, hfind, hvalid, hmsg]⟩
  · intro hgood hne
    have hemp : items.isEmpty = false := by
      cases items with
      | nil => exact absurd rfl hne
      | cons a l => rfl
    obtain ⟨m, hm⟩ := buildPriceMap_ok_of_valid items hgood []
    exact ⟨applySubmission r m now,
      by simp [submitMultiItemQuote, hemp, submitAfterRead, hfind, hvalid, hm]⟩

/-- C4 witness: `vendorPrice = 0` is rejected with the store unchanged, and
`vendorPrice = 0.01` is accepted, on a concrete pending request. -/
theorem submit_item_validation_witness :
    (∃ msg, submitMultiItemQuote [samplePendingRequest] "tok"
        [{ productId := "P", vendorPrice := some (.num 0) }] 0 =
      (.badRequest msg, [samplePendingRequest]))
    ∧ (∃ res, submitMultiItemQuote [samplePendingRequest] "tok"
        [{ productId := "P", vendorPrice := some (.num (1/100)) }] 0 =
      (.ok res, saveById [samplePendingRequest] res)) := by
  constructor
  · exact (submit_item_validation [samplePendingRequest] "tok"
      [{ productId := "P", vendorPrice := some (.num 0) }] 0 samplePendingRequest rfl
      (by decide)).1 ⟨_, List.mem_cons_self _ _, by decide⟩
  · exact (submit_item_validation [samplePendingRequest] "tok"
      [{ productId := "P", vendorPrice := some (.num (1/100)) }] 0 samplePendingRequest rfl
      (by decide)).2
      (by intro it hit
          simp only [List.mem_singleton] at hit
          subst hit
          simp [invalidSubmittedItem])
      (by decide)

/-! ## C5 -/

/-- An item whose key is not in the price map is returned unchanged. -/
theorem updateItem_not_in_map (m : List (String × PriceEntry)) (it : QuoteItem)
    (h : mapFind? (itemKey it) m = none) : updateItem m it = it := by
  simp [updateItem, h]

/-- An item whose key is in the price map gets exactly `vendorPrice` and
`vendorRemark` overwritten; every other field is kept. -/
theorem updateItem_in_map (m : List (String × PriceEntry)) (it : QuoteItem) (pe : PriceEntry)
    (h : mapFind? (itemKey it) m = some pe) :
    updateItem m it = { it with vendorPrice := some pe.price, vendorRemark := pe.remark } := by
  simp [updateItem, h]

/-- `updateItem` never changes identity, quantity or display fields. -/
theorem updateItem_preserves_frame (m : List (String × PriceEntry)) (it : QuoteItem) :
    (updateItem m it).productId = it.productId
    ∧ (updateItem m it).variantId = it.variantId
    ∧ (updateItem m it).requestedQty = it.requestedQty
    ∧ (updateItem m it).productName = it.productName
    ∧ (updateItem m it).variantName = it.variantName
    ∧ (updateItem m it).image = it.image := by
  unfold updateItem
  cases mapFind? (itemKey it) m <;> exact ⟨rfl, rfl, rfl, rfl, rfl, rfl⟩

/-- C5: a successful submission rewrites the stored items pointwise through the
price map built from the payload (`productId::variantId` keys): matched items
get exactly the submitted `vendorPrice`/`vendorRemark`, unmatched items are
returned verbatim (so their `vendorPrice` stays `null`), no other field of any
item changes, and the store receives only the updated document. -/
theorem submit_partial_update (store : List QuoteRequest) (token : String)
    (items : List SubmittedItem) (now : Nat) (res : QuoteRequest) (store₂ : List QuoteRequest)
    (r : QuoteRequest) (m : List (String × PriceEntry))
    (hfind : findByToken store token = some r) (hmap : buildPriceMap items [] = .ok m)
    (hok : submitMultiItemQuote store token items now = (.ok res, store₂)) :
    res.items = r.items.map (updateItem m)
    ∧ (∀ it, mapFind? (itemKey it) m = none → updateItem m it = it)
    ∧ (∀ it pe, mapFind? (itemKey it) m = some pe →
        updateItem m it = { it with vendorPrice := some pe.price, vendorRemark := pe.remark })
    ∧ (∀ it, (updateItem m it).productId = it.productId
        ∧ (updateItem m it).variantId = it.variantId
        ∧ (updateItem m it).requestedQty = it.requestedQty
        ∧ (updateItem m it).productName = it.productName
        ∧ (updateItem m it).variantName = it.variantName
        ∧ (updateItem m it).image = it.image)
    ∧ store₂ = saveById store res := by
  obtain ⟨r', m', hfind', _, hmap', hres, hstore⟩ :=
    submit_ok_inversion store token items now res store₂ hok
  have hr : r' = r := by rw [hfind'] at hfind; exact Option.some.inj hfind
  have hm : m' = m := by
    rw [hmap'] at hmap
    exact Except.ok.inj hmap
  subst hr hm
  refine ⟨?_, updateItem_not_in_map _, updateItem_in_map _, updateItem_preserves_frame _, hstore⟩
  rw [hres]
  rfl

/-- The two-item pending request of the C5 witness. -/
def twoItemRequest : QuoteRequest :=
  { samplePendingRequest with
      items := [{ productId := "P", requestedQty := 1 },
                { productId := "Q", requestedQty := 2 }] }

/-- The one-item payload of the C5 witness. -/
def oneItemPayload : List SubmittedItem :=
  [{ productId := "P", vendorPrice := some (.num 5) }]

/-- The price map the validation loop builds for `oneItemPayload`. -/
def oneItemMap : List (String × PriceEntry) := [("P::", ⟨5, none⟩)]

/-- C5 witness: submitting only one of two items updates exactly that item and
leaves the other with a `null` price. -/
theorem submit_partial_update_witness :
    ∃ res store₂,
      submitMultiItemQuote [twoItemRequest] "tok" oneItemPayload 0 = (.ok res, store₂)
      ∧ res.items = [{ productId := "P", requestedQty := 1, vendorPrice := some 5 },
                     { productId := "Q", requestedQty := 2 }]
      ∧ store₂ = saveById [twoItemRequest] res := by
  have h := submit_partial_update [twoItemRequest] "tok" oneItemPayload 0
    (applySubmission twoItemRequest oneItemMap 0)
    (saveById [twoItemRequest] (applySubmission twoItemRequest oneItemMap 0))
    twoItemRequest oneItemMap rfl rfl rfl
  exact ⟨_, _, rfl, by decide, h.2.2.2.2⟩

/-! ## C2 (code bug) -/

/-- Discriminator for a 200 submission outcome. -/
def isOkResult : SubmitResult → Bool
  | .ok _ => true
  | _ => false

/-- First racer's payload. -/
def racePayloadA : List SubmittedItem := [{ productId := "P", vendorPrice := some (.num 5) }]

/-- Second racer's payload. -/
def racePayloadB : List SubmittedItem := [{ productId := "P", vendorPrice := some (.num 7) }]

/-- C2 is violated by the code: `submitMultiItemQuote` is a `findOne` followed
by a `save`, not a conditional update filtered on `status == 'pending'`.  Under
the interleaving read₁, read₂, write₁, write₂ of two submitters holding the
same valid token, BOTH observe a 200 success (the loser never sees
`AlreadySubmitted`), and the final stored price is simply the second writer's. -/
theorem race_both_submissions_succeed :
    (isOkResult (submitAfterRead [samplePendingRequest]
        (findByToken [samplePendingRequest] "tok") racePayloadA 0).1 = true)
    ∧ (isOkResult (submitAfterRead
        (submitAfterRead [samplePendingRequest]
          (findByToken [samplePendingRequest] "tok") racePayloadA 0).2
        (findByToken [samplePendingRequest] "tok") racePayloadB 0).1 = true)
    ∧ ((submitAfterRead
        (submitAfterRead [samplePendingRequest]
          (findByToken [samplePendingRequest] "tok") racePayloadA 0).2
        (findByToken [samplePendingRequest] "tok") racePayloadB 0).1
          ≠ .gone "Quote already submitted")
    ∧ ((findByToken (submitAfterRead
        (submitAfterRead [samplePendingRequest]
          (findByToken [samplePendingRequest] "tok") racePayloadA 0).2
        (findByToken [samplePendingRequest] "tok") racePayloadB 0).2 "tok").map
          (fun r => r.items.map (·.vendorPrice))) = some [some 7] := by
  refine ⟨rfl, rfl, by decide, rfl⟩

/-! ## C8 (corrected) -/

/-- C8 counterexample: an id matching neither schema does not always yield 404 —
a malformed (non-24-hex) id is rejected with 400 before either store is
consulted. -/
theorem getQuoteById_malformed_counterexample :
    getQuoteById [] [] "xyz" = .badRequest
    ∧ getQuoteById [] [] "xyz" ≠ .notFound := ⟨rfl, by decide⟩

/-- C8 amended: for well-formed (24-hex) ids the lookup first tries the
multi-item store (`quoteType:'multi'`, normalized detail), falls back to the
legacy store (`quoteType:'single'`), and answers 404 when neither matches;
malformed ids are answered 400 without consulting either store. -/
theorem getQuoteById_dual_schema (multi : List QuoteRequest) (legacy : List LegacyQuote)
    (id : String) :
    (isValidObjectId id = false → getQuoteById multi legacy id = .badRequest)
    ∧ (isValidObjectId id = true →
        (∀ r, multi.find? (fun x => x.id == id) = some r →
          getQuoteById multi legacy id = .ok "multi" (normalizeMulti r))
        ∧ (multi.find? (fun x => x.id == id) = none →
            (∀ q, legacy.find? (fun x => x.id == id) = some q →
              getQuoteById multi legacy id = .ok "single" (normalizeSingle q))
            ∧ (legacy.find? (fun x => x.id == id) = none →
                getQuoteById multi legacy id = .notFound))) := by
  constructor
  · intro hbad
    simp [getQuoteById, hbad]
  · intro hok
    refine ⟨fun r hr => by simp [getQuoteById, hok, hr], fun hm => ⟨?_, ?_⟩⟩
    · intro q hq
      simp [getQuoteById, hok, hm, hq]
    · intro hl
      simp [getQuoteById, hok, hm, hl]

/-- A concrete stored multi-item request with a well-formed Mongo id. -/
def storedMultiRequest : QuoteRequest :=
  { samplePendingRequest with id := "aaaaaaaaaaaaaaaaaaaaaaaa" }

/-- A concrete stored legacy quote with a well-formed Mongo id. -/
def storedLegacyQuote : LegacyQuote :=
  { id := "bbbbbbbbbbbbbbbbbbbbbbbb", itemId := "item-1", vendorName := "V",
    vendorEmail := "v@x.com", quotedPrice := 12, ipAddress := "1.2.3.4", submittedAt := 10 }

/-- C8 witness: the four outcomes at concrete inputs. -/
theorem getQuoteById_dual_schema_witness :
    getQuoteById [storedMultiRequest] [storedLegacyQuote] "aaaaaaaaaaaaaaaaaaaaaaaa" =
      .ok "multi" (normalizeMulti storedMultiRequest)
    ∧ getQuoteById [storedMultiRequest] [storedLegacyQuote] "bbbbbbbbbbbbbbbbbbbbbbbb" =
      .ok "single" (normalizeSingle storedLegacyQuote)
    ∧ getQuoteById [storedMultiRequest] [storedLegacyQuote] "cccccccccccccccccccccccc" = .notFound
    ∧ getQuoteById [storedMultiRequest] [storedLegacyQuote] "xyz" = .badRequest := by
  refine ⟨?_, ?_, ?_, ?_⟩
  · exact ((getQuoteById_dual_schema [storedMultiRequest] [storedLegacyQuote]
      "aaaaaaaaaaaaaaaaaaaaaaaa").2 (by decide)).1 storedMultiRequest rfl
  · exact (((getQuoteById_dual_schema [storedMultiRequest] [storedLegacyQuote]
      "bbbbbbbbbbbbbbbbbbbbbbbb").2 (by decide)).2 rfl).1 storedLegacyQuote rfl
  · exact (((getQuoteById_dual_schema [storedMultiRequest] [storedLegacyQuote]
      "cccccccccccccccccccccccc").2 (by decide)).2 rfl).2 rfl
  · exact (getQuoteById_dual_schema [storedMultiRequest] [storedLegacyQuote] "xyz").1 (by decide)

/-! ## C9 -/

/-- A legacy payload that passes the controller's field and price validation:
required fields present and a numeric non-negative price. -/
def validLegacyPayload (p : LegacyPayload) : Bool :=
  (p.itemId ≠ "" : Bool) && (p.vendorName ≠ "" : Bool) && (p.vendorEmail ≠ "" : Bool) &&
    match p.quotedPrice with
    | some (.num q) => decide (0 ≤ q)
    | _ => false

/-- Appending a document changes the rate-limit count by its own match. -/
theorem countRecentFromIp_append (store : List LegacyQuote) (q : LegacyQuote)
    (ip : String) (now : Nat) :
    countRecentFromIp (store ++ [q]) ip now =
      countRecentFromIp store ip now +
        (if q.ipAddress = ip ∧ (now : ℤ) - 3600000 ≤ (q.submittedAt : ℤ) then 1 else 0) := by
  have hsingle : ∀ f : LegacyQuote → Bool,
      (List.filter f [q]).length = if f q = true then 1 else 0 := by
    intro f
    rw [List.filter_cons]
    by_cases hf : f q = true
    · rw [if_pos hf, if_pos hf]
      rfl
    · rw [if_neg hf, if_neg hf]
      rfl
  simp only [countRecentFromIp, List.filter_append, List.length_append]
  rw [hsingle]
  congr 1
  by_cases h1 : q.ipAddress = ip
  · by_cases h2 : (now : ℤ) - 3600000 ≤ (q.submittedAt : ℤ)
    · have hb : (q.ipAddress == ip &&
          decide ((now : ℤ) - 3600000 ≤ (q.submittedAt : ℤ))) = true := by
        rw [show (q.ipAddress == ip) = true from beq_iff_eq.mpr h1, decide_eq_true h2]
        rfl
      rw [if_pos hb, if_pos ⟨h1, h2⟩]
    · have hb : (q.ipAddress == ip &&
          decide ((now : ℤ) - 3600000 ≤ (q.submittedAt : ℤ))) = false := by
        rw [decide_eq_false h2, Bool.and_false]
      rw [if_neg (by rw [hb]; exact Bool.false_ne_true), if_neg (fun hc => h2 hc.2)]
  · have hb : (q.ipAddress == ip &&
        decide ((now : ℤ) - 3600000 ≤ (q.submittedAt : ℤ))) = false := by
      rw [show (q.ipAddress == ip) = false from beq_eq_false_iff_ne.mpr h1, Bool.false_and]
    rw [if_neg (by rw [hb]; exact Bool.false_ne_true), if_neg (fun hc => h1 hc.1)]

/-- Unfolded behavior of `submitQuote` for a validation-passing payload:
rate-limited with no write exactly when the recent count reaches 5, created and
appended otherwise. -/
theorem submitQuote_valid_cases (store : List LegacyQuote) (basket : List BasketItem)
    (p : LegacyPayload) (ip : String) (now : Nat) (newId : String) (q : ℚ)
    (hitem : p.itemId ≠ "") (hname : p.vendorName ≠ "") (hemail : p.vendorEmail ≠ "")
    (hq : p.quotedPrice = some (.num q)) (hq0 : 0 ≤ q) :
    (5 ≤ countRecentFromIp store ip now →
      submitQuote store basket p ip now newId = (.rateLimited 3600, store))
    ∧ (countRecentFromIp store ip now < 5 →
      submitQuote store basket p ip now newId =
        (.created (legacyQuoteOf basket p q ip now newId),
         store ++ [legacyQuoteOf basket p q ip now newId])) := by
  have hqlt : ¬ q < 0 := not_lt.mpr hq0
  constructor
  · intro h5
    simp [submitQuote, hitem, hname, hemail, hq, hqlt, h5]
  · intro h5
    simp [submitQuote, hitem, hname, hemail, hq, hqlt, not_le.mpr h5]

/-- C9: for a payload passing field validation, `submitLegacyQuote` is rejected
with 429 and a `retryAfter` of 3600, persisting nothing, exactly when at least 5
stored legacy quotes share the client IP with `submittedAt` in the last 3600
seconds; below the threshold the submission is persisted (so four prior recent
quotes mean this fifth succeeds, and any valid sixth from the same IP is then
refused). -/
theorem legacy_rate_limit (store : List LegacyQuote) (basket : List BasketItem)
    (p : LegacyPayload) (ip : String) (now : Nat) (newId : String)
    (hv : validLegacyPayload p = true) :
    ((submitQuote store basket p ip now newId).1 = .rateLimited 3600 ↔
      5 ≤ countRecentFromIp store ip now)
    ∧ (5 ≤ countRecentFromIp store ip now →
        submitQuote store basket p ip now newId = (.rateLimited 3600, store))
    ∧ (countRecentFromIp store ip now < 5 →
        ∃ quote, submitQuote store basket p ip now newId = (.created quote, store ++ [quote])
          ∧ quote.ipAddress = ip ∧ quote.submittedAt = now)
    ∧ (countRecentFromIp store ip now = 4 →
        ∀ p₂ basket₂ newId₂, validLegacyPayload p₂ = true →
          ∃ quote, submitQuote store basket p ip now newId = (.created quote, store ++ [quote])
            ∧ (submitQuote (store ++ [quote]) basket₂ p₂ ip now newId₂).1 =
                .rateLimited 3600) := by
  simp only [validLegacyPayload, Bool.and_eq_true, decide_eq_true_eq] at hv
  obtain ⟨⟨⟨hitem, hname⟩, hemail⟩, hqm⟩ := hv
  obtain ⟨q, hq, hq0⟩ : ∃ q, p.quotedPrice = some (.num q) ∧ 0 ≤ q := by
    match hqp : p.quotedPrice with
    | none => rw [hqp] at hqm; simp at hqm
    | some .nan => rw [hqp] at hqm; simp at hqm
    | some (.num q) => rw [hqp] at hqm; exact ⟨q, rfl, of_decide_eq_true hqm⟩
  have hcases := submitQuote_valid_cases store basket p ip now newId q hitem hname hemail hq hq0
  refine ⟨⟨?_, fun h5 => by rw [hcases.1 h5]⟩, hcases.1, ?_, ?_⟩
  · intro hres
    by_contra hlt
    rw [hcases.2 (not_le.mp hlt)] at hres
    simp at hres
  · intro h5
    exact ⟨legacyQuoteOf basket p q ip now newId, hcases.2 h5, rfl, rfl⟩
  · intro h4 p₂ basket₂ newId₂ hv₂
    simp only [validLegacyPayload, Bool.and_eq_true, decide_eq_true_eq] at hv₂
    obtain ⟨⟨⟨hitem₂, hname₂⟩, hemail₂⟩, hqm₂⟩ := hv₂
    obtain ⟨q₂, hq₂, hq0₂⟩ : ∃ q₂, p₂.quotedPrice = some (.num q₂) ∧ 0 ≤ q₂ := by
      match hqp : p₂.quotedPrice with
      | none => rw [hqp] at hqm₂; simp at hqm₂
      | some .nan => rw [hqp] at hqm₂; simp at hqm₂
      | some (.num q₂) => rw [hqp] at hqm₂; exact ⟨q₂, rfl, of_decide_eq_true hqm₂⟩
    refine ⟨legacyQuoteOf basket p q ip now newId, hcases.2 (by omega), ?_⟩
    have hcount : countRecentFromIp (store ++ [legacyQuoteOf basket p q ip now newId]) ip now = 5 := by
      rw [countRecentFromIp_append, h4,
        if_pos ⟨rfl, by show (now : ℤ) - 3600000 ≤ ((now : Nat) : ℤ); omega⟩]
    have hcases₂ := submitQuote_valid_cases (store ++ [legacyQuoteOf basket p q ip now newId])
      basket₂ p₂ ip now newId₂ q₂ hitem₂ hname₂ hemail₂ hq₂ hq0₂
    rw [hcases₂.1 (by rw [hcount])]

/-- A store of four recent legacy quotes from one IP (C9 witness). -/
def fourRecentQuotes : List LegacyQuote :=
  [{ id := "1", itemId := "i", vendorName := "V", vendorEmail := "e", quotedPrice := 1,
     ipAddress := "1.2.3.4", submittedAt := 3600000 },
   { id := "2", itemId := "i", vendorName := "V", vendorEmail := "e", quotedPrice := 1,
     ipAddress := "1.2.3.4", submittedAt := 3600000 },
   { id := "3", itemId := "i", vendorName := "V", vendorEmail := "e", quotedPrice := 1,
     ipAddress := "1.2.3.4", submittedAt := 3600000 },
   { id := "4", itemId := "i", vendorName := "V", vendorEmail := "e", quotedPrice := 1,
     ipAddress := "1.2.3.4", submittedAt := 3600000 }]

/-- A concrete valid legacy payload (C9 witness). -/
def sampleLegacyPayload : LegacyPayload :=
  { itemId := "item-1", vendorName := "V", vendorEmail := "v@x.com",
    quotedPrice := some (.num 10) }

/-- C9 witness: with four recent quotes from the IP the fifth submission
succeeds and the sixth from the same IP is rate limited with `retryAfter` 3600;
with five recent quotes the submission is refused outright and persists
nothing. -/
theorem legacy_rate_limit_witness :
    (∃ quote,
      submitQuote fourRecentQuotes [] sampleLegacyPayload "1.2.3.4" 3600001 "5" =
        (.created quote, fourRecentQuotes ++ [quote])
      ∧ (submitQuote (fourRecentQuotes ++ [quote]) [] sampleLegacyPayload "1.2.3.4" 3600001
          "6").1 = .rateLimited 3600)
    ∧ (∀ q₅, submitQuote (fourRecentQuotes ++ [q₅]) [] sampleLegacyPayload "1.2.3.4" 3600001 "6" =
        (.rateLimited 3600, fourRecentQuotes ++ [q₅]) ∨
        countRecentFromIp (fourRecentQuotes ++ [q₅]) "1.2.3.4" 3600001 < 5) := by
  constructor
  · exact (legacy_rate_limit fourRecentQuotes [] sampleLegacyPayload "1.2.3.4" 3600001 "5"
      (by decide)).2.2.2 (by decide) sampleLegacyPayload [] "6" (by decide)
  · intro q₅
    by_cases h5 : 5 ≤ countRecentFromIp (fourRecentQuotes ++ [q₅]) "1.2.3.4" 3600001
    · exact Or.inl ((legacy_rate_limit (fourRecentQuotes ++ [q₅]) [] sampleLegacyPayload
        "1.2.3.4" 3600001 "6" (by decide)).2.1 h5)
    · exact Or.inr (not_le.mp h5)

/-! ## Association-list lemmas for the JS `Map` model (towards C7) -/

/-- Unfolding `Map.get` over a cons cell. -/
theorem mapFind?_cons {V : Type} (k : String) (p : String × V) (m : List (String × V)) :
    mapFind? k (p :: m) = if p.1 = k then some p.2 else mapFind? k m := by
  by_cases h : p.1 = k
  · simp [mapFind?, List.find?_cons_of_pos, h]
  · simp [mapFind?, List.find?_cons_of_neg, h]

/-- `Map.get` on the empty map. -/
theorem mapFind?_nil {V : Type} (k : String) : mapFind? k ([] : List (String × V)) = none := rfl

/-- `Map.set` on the empty map appends the fresh pair. -/
theorem jsMapUpdate_nil {V : Type} (k : String) (f : Option V → V) :
    jsMapUpdate k f ([] : List (String × V)) = [(k, f none)] := rfl

/-- `Map.set` hitting the head key updates in place. -/
theorem jsMapUpdate_cons_self {V : Type} (k : String) (f : Option V → V) (v : V)
    (rest : List (String × V)) :
    jsMapUpdate k f ((k, v) :: rest) = (k, f (some v)) :: rest := by
  simp [jsMapUpdate]

/-- `Map.set` passing over a different head key. -/
theorem jsMapUpdate_cons_ne {V : Type} (k k₀ : String) (h : k₀ ≠ k) (f : Option V → V) (v : V)
    (rest : List (String × V)) :
    jsMapUpdate k f ((k₀, v) :: rest) = (k₀, v) :: jsMapUpdate k f rest := by
  simp [jsMapUpdate, h]

/-- `Map.get` after `Map.set` at the same key. -/
theorem mapFind?_jsMapUpdate_self {V : Type} (k : String) (f : Option V → V)
    (m : List (String × V)) :
    mapFind? k (jsMapUpdate k f m) = some (f (mapFind? k m)) := by
  induction m with
  | nil => rw [jsMapUpdate_nil, mapFind?_cons, if_pos rfl, mapFind?_nil]
  | cons p rest ih =>
    obtain ⟨k₀, v⟩ := p
    by_cases h : k₀ = k
    · subst h
      rw [jsMapUpdate_cons_self, mapFind?_cons, mapFind?_cons, if_pos rfl, if_pos rfl]
    · rw [jsMapUpdate_cons_ne _ _ h, mapFind?_cons, mapFind?_cons, if_neg h, if_neg h, ih]

/-- `Map.get` after `Map.set` at a different key. -/
theorem mapFind?_jsMapUpdate_ne {V : Type} (k k' : String) (hne : k' ≠ k) (f : Option V → V)
    (m : List (String × V)) :
    mapFind? k' (jsMapUpdate k f m) = mapFind? k' m := by
  have hke : ¬ k = k' := fun h => hne h.symm
  induction m with
  | nil => rw [jsMapUpdate_nil, mapFind?_cons, if_neg hke]
  | cons p rest ih =>
    obtain ⟨k₀, v⟩ := p
    by_cases h : k₀ = k
    · subst h
      rw [jsMapUpdate_cons_self, mapFind?_cons, mapFind?_cons, if_neg hke, if_neg hke]
    · rw [jsMapUpdate_cons_ne _ _ h, mapFind?_cons, mapFind?_cons, ih]

/-- Key membership after `Map.set`. -/
theorem keys_jsMapUpdate_mem {V : Type} (k o : String) (f : Option V → V)
    (m : List (String × V)) :
    o ∈ (jsMapUpdate k f m).map (·.1) ↔ o = k ∨ o ∈ m.map (·.1) := by
  induction m with
  | nil =>
    rw [jsMapUpdate_nil]
    simp
  | cons p rest ih =>
    obtain ⟨k₀, v⟩ := p
    by_cases h : k₀ = k
    · subst h
      rw [jsMapUpdate_cons_self]
      simp only [List.map_cons, List.mem_cons]
      tauto
    · rw [jsMapUpdate_cons_ne _ _ h]
      simp only [List.map_cons, List.mem_cons, ih]
      tauto

/-- `Map.set` keeps the keys duplicate-free. -/
theorem keys_jsMapUpdate_nodup {V : Type} (k : String) (f : Option V → V)
    (m : List (String × V)) (h : (m.map (·.1)).Nodup) :
    ((jsMapUpdate k f m).map (·.1)).Nodup := by
  induction m with
  | nil => simp [jsMapUpdate]
  | cons p rest ih =>
    obtain ⟨k₀, v⟩ := p
    simp only [List.map_cons, List.nodup_cons] at h
    obtain ⟨hk₀, hrest⟩ := h
    by_cases hek : k₀ = k
    · subst hek
      rw [jsMapUpdate_cons_self]
      simp only [List.map_cons, List.nodup_cons]
      exact ⟨hk₀, hrest⟩
    · rw [jsMapUpdate_cons_ne _ _ hek]
      simp only [List.map_cons, List.nodup_cons]
      refine ⟨?_, ih hrest⟩
      rw [keys_jsMapUpdate_mem]
      rintro (rfl | hmem)
      · exact hek rfl
      · exact hk₀ hmem

/-- Every pair of an updated map is an old pair or the freshly written one. -/
theorem mem_jsMapUpdate {V : Type} (k : String) (f : Option V → V) (m : List (String × V))
    (p : String × V) (hp : p ∈ jsMapUpdate k f m) :
    p ∈ m ∨ p = (k, f (mapFind? k m)) := by
  induction m with
  | nil =>
    rw [jsMapUpdate_nil] at hp
    simp only [List.mem_singleton] at hp
    right
    rw [hp, mapFind?_nil]
  | cons q rest ih =>
    obtain ⟨k₀, v⟩ := q
    by_cases h : k₀ = k
    · subst h
      rw [jsMapUpdate_cons_self] at hp
      rcases List.mem_cons.mp hp with hp | hp
      · right
        rw [hp, mapFind?_cons, if_pos rfl]
      · exact Or.inl (List.mem_cons_of_mem _ hp)
    · rw [jsMapUpdate_cons_ne _ _ h] at hp
      rcases List.mem_cons.mp hp with hp | hp
      · exact Or.inl (hp ▸ List.mem_cons_self _ _)
      · rcases ih hp with h' | h'
        · exact Or.inl (List.mem_cons_of_mem _ h')
        · right
          rw [h', mapFind?_cons, if_neg h]

/-- The pair found by `Map.get` is a pair of the map (with the queried key). -/
theorem mapFind?_mem {V : Type} (m : List (String × V)) (k : String) (v : V)
    (h : mapFind? k m = some v) : (k, v) ∈ m := by
  unfold mapFind? at h
  cases hf : m.find? (fun p => p.1 == k) with
  | none => rw [hf] at h; simp at h
  | some p =>
    rw [hf] at h
    simp only [Option.map_some'] at h
    have hp : p.1 = k := by simpa using List.find?_some hf
    have hpm := List.mem_of_find?_eq_some hf
    have : p = (k, v) := Prod.ext hp (Option.some.inj h)
    exact this ▸ hpm

/-- Under duplicate-free keys, a member pair is what `Map.get` returns. -/
theorem mapFind?_of_mem_nodup {V : Type} (m : List (String × V)) (k : String) (v : V)
    (hnd : (m.map (·.1)).Nodup) (hmem : (k, v) ∈ m) : mapFind? k m = some v := by
  induction m with
  | nil => exact absurd hmem (List.not_mem_nil _)
  | cons p rest ih =>
    obtain ⟨k₀, v₀⟩ := p
    simp only [List.map_cons, List.nodup_cons] at hnd
    rcases List.mem_cons.mp hmem with heq | hmem'
    · have hk : k₀ = k := (congrArg Prod.fst heq).symm
      have hv : v₀ = v := (congrArg Prod.snd heq).symm
      rw [mapFind?_cons, if_pos hk]
      exact congrArg some hv
    · have hk₀ : k₀ ≠ k := by
        rintro rfl
        exact hnd.1 (List.mem_map.mpr ⟨(k₀, v), hmem', rfl⟩)
      rw [mapFind?_cons, if_neg hk₀]
      exact ih hnd.2 hmem'

/-! ## Structure of the order-map fold (towards C7) -/

/-- The effect of folding one request, seen at a single order key. -/
def stepO (o : String) (acc : Option OrderGroup) (r : QuoteRequest) : Option OrderGroup :=
  if orderKeyOf r = o then some (updateOrderEntry r (acc.getD (initOrderEntry r))) else acc

/-- `updateOrderEntry` never changes the entry's `orderId`. -/
theorem upd_orderId (r : QuoteRequest) (e : OrderGroup) :
    (updateOrderEntry r e).orderId = e.orderId := by
  unfold updateOrderEntry
  by_cases h : e.createdAt < r.createdAt <;> simp [h]

/-- `updateOrderEntry` takes the later `createdAt`. -/
theorem upd_createdAt (r : QuoteRequest) (e : OrderGroup) :
    (updateOrderEntry r e).createdAt =
      if e.createdAt < r.createdAt then r.createdAt else e.createdAt := by
  unfold updateOrderEntry
  by_cases h : e.createdAt < r.createdAt <;> simp [h]

/-- `updateOrderEntry` moves the display `_id` together with `createdAt`. -/
theorem upd_id (r : QuoteRequest) (e : OrderGroup) :
    (updateOrderEntry r e).id = if e.createdAt < r.createdAt then r.id else e.id := by
  unfold updateOrderEntry
  by_cases h : e.createdAt < r.createdAt <;> simp [h]

/-- `updateOrderEntry` folds the request's items into the products map. -/
theorem upd_products (r : QuoteRequest) (e : OrderGroup) :
    (updateOrderEntry r e).products = r.items.foldl (addItemQuote r) e.products := by
  unfold updateOrderEntry
  by_cases h : e.createdAt < r.createdAt <;> simp [h]

/-- The vendor-quote list displayed for product key `k` of an order entry's
products map. -/
def quotesAt (ps : List (String × ProductGroup)) (k : String) : List VendorQuoteView :=
  match mapFind? k ps with
  | none => []
  | some pg => pg.vendorQuotes

/-- One item adds exactly one vendor-quote record to its own key. -/
theorem quotesAt_addItemQuote (r : QuoteRequest) (ps : List (String × ProductGroup))
    (it : QuoteItem) (k : String) :
    (quotesAt (addItemQuote r ps it) k).length =
      (quotesAt ps k).length + (if itemKey it = k then 1 else 0) := by
  by_cases h : itemKey it = k
  · subst h
    unfold addItemQuote quotesAt
    rw [mapFind?_jsMapUpdate_self, if_pos rfl]
    cases mapFind? (itemKey it) ps <;> simp [initProduct]
  · unfold addItemQuote quotesAt
    rw [mapFind?_jsMapUpdate_ne _ _ (fun he => h he.symm), if_neg h]
    omega

/-- Folding a request's items adds its per-key item count to each key. -/
theorem quotesAt_items_foldl (r : QuoteRequest) (items : List QuoteItem) :
    ∀ (ps : List (String × ProductGroup)) (k : String),
      (quotesAt (items.foldl (addItemQuote r) ps) k).length =
        (quotesAt ps k).length + items.countP (fun it => itemKey it == k) := by
  induction items with
  | nil => simp
  | cons it rest ih =>
    intro ps k
    simp only [List.foldl_cons, List.countP_cons]
    rw [ih, quotesAt_addItemQuote]
    have hif : (if itemKey it = k then 1 else 0) =
        (if (itemKey it == k) = true then 1 else 0) := by
      by_cases h : itemKey it = k <;> simp [h]
    rw [hif]
    omega

/-- `updateOrderEntry` adds the request's per-key item count to each key. -/
theorem upd_quotesAt (r : QuoteRequest) (e : OrderGroup) (k : String) :
    (quotesAt (updateOrderEntry r e).products k).length =
      (quotesAt e.products k).length + r.items.countP (fun it => itemKey it == k) := by
  rw [upd_products, quotesAt_items_foldl]

/-- One step of the order-map fold seen at a single key. -/
theorem mapFind?_addRequestToMap (m : List (String × OrderGroup)) (r : QuoteRequest)
    (o : String) :
    mapFind? o (addRequestToMap m r) = stepO o (mapFind? o m) r := by
  unfold addRequestToMap stepO
  by_cases h : orderKeyOf r = o
  · rw [← h, mapFind?_jsMapUpdate_self, if_pos rfl]
  · rw [mapFind?_jsMapUpdate_ne _ _ (fun he => h he.symm), if_neg h]

/-- The whole order-map fold seen at a single key. -/
theorem mapFind?_foldl_addRequestToMap (l : List QuoteRequest) :
    ∀ (m : List (String × OrderGroup)) (o : String),
      mapFind? o (l.foldl addRequestToMap m) = l.foldl (stepO o) (mapFind? o m) := by
  induction l with
  | nil => intro m o; rfl
  | cons r rest ih =>
    intro m o
    simp only [List.foldl_cons]
    rw [ih, mapFind?_addRequestToMap]

/-- Key membership of the order-map fold. -/
theorem mem_keys_foldl_addRequestToMap (l : List QuoteRequest) :
    ∀ (m : List (String × OrderGroup)) (o : String),
      (o ∈ (l.foldl addRequestToMap m).map (·.1)) ↔
        o ∈ m.map (·.1) ∨ ∃ r ∈ l, orderKeyOf r = o := by
  induction l with
  | nil => simp
  | cons r rest ih =>
    intro m o
    simp only [List.foldl_cons]
    rw [ih]
    unfold addRequestToMap
    rw [keys_jsMapUpdate_mem]
    simp only [List.mem_cons]
    constructor
    · rintro ((rfl | hm) | ⟨x, hx, hox⟩)
      · exact Or.inr ⟨r, Or.inl rfl, rfl⟩
      · exact Or.inl hm
      · exact Or.inr ⟨x, Or.inr hx, hox⟩
    · rintro (hm | ⟨x, (rfl | hx), hox⟩)
      · exact Or.inl (Or.inr hm)
      · exact Or.inl (Or.inl hox.symm)
      · exact Or.inr ⟨x, hx, hox⟩

/-- The order-map fold keeps keys duplicate-free. -/
theorem nodup_keys_foldl_addRequestToMap (l : List QuoteRequest) :
    ∀ (m : List (String × OrderGroup)), (m.map (·.1)).Nodup →
      ((l.foldl addRequestToMap m).map (·.1)).Nodup := by
  induction l with
  | nil => exact fun m h => h
  | cons r rest ih =>
    intro m h
    simp only [List.foldl_cons]
    exact ih _ (keys_jsMapUpdate_nodup _ _ _ h)

/-- Every entry of the order-map fold carries its key as its `orderId`. -/
theorem orderId_eq_key_foldl (l : List QuoteRequest) :
    ∀ (m : List (String × OrderGroup)),
      (∀ p ∈ m, (p : String × OrderGroup).2.orderId = p.1) →
      ∀ p ∈ l.foldl addRequestToMap m, (p : String × OrderGroup).2.orderId = p.1 := by
  induction l with
  | nil => exact fun m hm => hm
  | cons r rest ih =>
    intro m hm
    simp only [List.foldl_cons]
    apply ih
    intro p hp
    rcases mem_jsMapUpdate _ _ _ _ hp with h | h
    · exact hm p h
    · rw [h]
      show (updateOrderEntry r _).orderId = orderKeyOf r
      rw [upd_orderId]
      cases hf : mapFind? (orderKeyOf r) m with
      | none => rfl
      | some e =>
        exact hm (orderKeyOf r, e) (mapFind?_mem m _ e hf)

/-- The per-key fold never loses a present entry. -/
theorem foldl_stepO_some (o : String) (l : List QuoteRequest) :
    ∀ e₀ : OrderGroup, ∃ e, l.foldl (stepO o) (some e₀) = some e := by
  induction l with
  | nil => exact fun e₀ => ⟨e₀, rfl⟩
  | cons r rest ih =>
    intro e₀
    simp only [List.foldl_cons, stepO]
    by_cases h : orderKeyOf r = o
    · rw [if_pos h]
      exact ih _
    · rw [if_neg h]
      exact ih e₀

/-- Invariant of the per-key fold started from an existing entry: the
`orderId` is kept, the `createdAt` only grows and, together with the `_id`,
comes either from the start entry or from a contributing request; and every
contributing request's `createdAt` is bounded by the result's. -/
theorem foldl_stepO_inv (o : String) (l : List QuoteRequest) :
    ∀ (e₀ e : OrderGroup), l.foldl (stepO o) (some e₀) = some e →
      e.orderId = e₀.orderId
      ∧ e₀.createdAt ≤ e.createdAt
      ∧ ((e.createdAt = e₀.createdAt ∧ e.id = e₀.id) ∨
          ∃ r ∈ l, orderKeyOf r = o ∧ r.createdAt = e.createdAt ∧ r.id = e.id)
      ∧ (∀ r ∈ l, orderKeyOf r = o → r.createdAt ≤ e.createdAt) := by
  induction l with
  | nil =>
    intro e₀ e h
    have he : e₀ = e := by simpa using h
    subst he
    exact ⟨rfl, le_refl _, Or.inl ⟨rfl, rfl⟩, by simp⟩
  | cons r rest ih =>
    intro e₀ e h
    simp only [List.foldl_cons, stepO] at h
    by_cases hr : orderKeyOf r = o
    · rw [if_pos hr] at h
      have h' : rest.foldl (stepO o) (some (updateOrderEntry r e₀)) = some e := h
      obtain ⟨hoid, hle, hid, hbound⟩ := ih (updateOrderEntry r e₀) e h'
      have hstep : e₀.createdAt ≤ (updateOrderEntry r e₀).createdAt := by
        rw [upd_createdAt]
        split <;> omega
      refine ⟨hoid.trans (upd_orderId r e₀), le_trans hstep hle, ?_, ?_⟩
      · rcases hid with ⟨hc, hi⟩ | ⟨r', hr', ho', hc', hi'⟩
        · rw [upd_createdAt] at hc
          rw [upd_id] at hi
          by_cases hlt : e₀.createdAt < r.createdAt
          · rw [if_pos hlt] at hc hi
            exact Or.inr ⟨r, List.mem_cons_self r rest, hr, hc.symm, hi.symm⟩
          · rw [if_neg hlt] at hc hi
            exact Or.inl ⟨hc, hi⟩
        · exact Or.inr ⟨r', List.mem_cons_of_mem r hr', ho', hc', hi'⟩
      · intro r' hr' ho'
        rcases List.mem_cons.mp hr' with rfl | hmem
        · have : r'.createdAt ≤ (updateOrderEntry r' e₀).createdAt := by
            rw [upd_createdAt]
            split <;> omega
          exact le_trans this hle
        · exact hbound r' hmem ho'
    · rw [if_neg hr] at h
      obtain ⟨hoid, hle, hid, hbound⟩ := ih e₀ e h
      refine ⟨hoid, hle, ?_, ?_⟩
      · rcases hid with hid | ⟨r', hr', ho', hc', hi'⟩
        · exact Or.inl hid
        · exact Or.inr ⟨r', List.mem_cons_of_mem r hr', ho', hc', hi'⟩
      · intro r' hr' ho'
        rcases List.mem_cons.mp hr' with rfl | hmem
        · exact absurd ho' hr
        · exact hbound r' hmem ho'

/-- The per-key fold adds each contributing request's per-key item count. -/
theorem foldl_stepO_quotes (o : String) (l : List QuoteRequest) :
    ∀ (e₀ e : OrderGroup) (k : String), l.foldl (stepO o) (some e₀) = some e →
      (quotesAt e.products k).length = (quotesAt e₀.products k).length +
        (l.map (fun r => if orderKeyOf r = o
          then r.items.countP (fun it => itemKey it == k) else 0)).sum := by
  induction l with
  | nil =>
    intro e₀ e k h
    have he : e₀ = e := by simpa using h
    subst he
    simp
  | cons r rest ih =>
    intro e₀ e k h
    simp only [List.foldl_cons, stepO] at h
    simp only [List.map_cons, List.sum_cons]
    by_cases hr : orderKeyOf r = o
    · rw [if_pos hr] at h
      rw [if_pos hr, ih (updateOrderEntry r e₀) e k h, upd_quotesAt]
      omega
    · rw [if_neg hr] at h
      rw [if_neg hr, ih e₀ e k h]
      omega

/-- The per-key fold from `none` either stays `none` (no contributor) or is the
fold from the first contributor's initialized entry over the remainder. -/
theorem foldl_stepO_none (o : String) (l : List QuoteRequest) :
    (l.foldl (stepO o) none = none ∧ ∀ r ∈ l, orderKeyOf r ≠ o) ∨
    (∃ l₁ r l₂, l = l₁ ++ r :: l₂ ∧ (∀ x ∈ l₁, orderKeyOf x ≠ o) ∧ orderKeyOf r = o ∧
      l.foldl (stepO o) none =
        l₂.foldl (stepO o) (some (updateOrderEntry r (initOrderEntry r)))) := by
  induction l with
  | nil => exact Or.inl ⟨rfl, by simp⟩
  | cons r rest ih =>
    by_cases hr : orderKeyOf r = o
    · right
      refine ⟨[], r, rest, by simp, by simp, hr, ?_⟩
      simp only [List.foldl_cons, stepO, if_pos hr]
      rfl
    · rcases ih with ⟨hfold, hall⟩ | ⟨l₁, r₀, l₂, heq, hl₁, hr₀, hfold⟩
      · left
        constructor
        · simp only [List.foldl_cons, stepO, if_neg hr]
          exact hfold
        · intro x hx
          rcases List.mem_cons.mp hx with rfl | hmem
          · exact hr
          · exact hall x hmem
      · right
        refine ⟨r :: l₁, r₀, l₂, by rw [heq, List.cons_append], ?_, hr₀, ?_⟩
        · intro x hx
          rcases List.mem_cons.mp hx with rfl | hmem
          · exact hr
          · exact hl₁ x hmem
        · simp only [List.foldl_cons, stepO, if_neg hr]
          exact hfold

/-- The entry a lone request initializes: its own `orderId` key, `createdAt`,
`_id`, and one quote record per item. -/
theorem initUpd_spec (r : QuoteRequest) :
    (updateOrderEntry r (initOrderEntry r)).orderId = orderKeyOf r
    ∧ (updateOrderEntry r (initOrderEntry r)).createdAt = r.createdAt
    ∧ (updateOrderEntry r (initOrderEntry r)).id = r.id
    ∧ ∀ k, (quotesAt (updateOrderEntry r (initOrderEntry r)).products k).length =
        r.items.countP (fun it => itemKey it == k) := by
  refine ⟨(upd_orderId r _).trans rfl, ?_, ?_, ?_⟩
  · rw [upd_createdAt]
    simp [initOrderEntry]
  · rw [upd_id]
    simp [initOrderEntry]
  · intro k
    rw [upd_quotesAt]
    simp [initOrderEntry, quotesAt, mapFind?_nil]

/-- Specification of the per-key fold from `none`: the resulting entry has the
key as `orderId`, its `createdAt` and `_id` come from one contributing request,
that `createdAt` dominates every contributor, and each key's quote list counts
every contributing item occurrence. -/
theorem entryFold_spec (o : String) (l : List QuoteRequest) (e : OrderGroup)
    (h : l.foldl (stepO o) none = some e) :
    e.orderId = o
    ∧ (∃ r ∈ l, orderKeyOf r = o ∧ r.createdAt = e.createdAt ∧ r.id = e.id)
    ∧ (∀ r ∈ l, orderKeyOf r = o → r.createdAt ≤ e.createdAt)
    ∧ ∀ k, (quotesAt e.products k).length =
        (l.map (fun r => if orderKeyOf r = o
          then r.items.countP (fun it => itemKey it == k) else 0)).sum := by
  rcases foldl_stepO_none o l with ⟨hnone, _⟩ | ⟨l₁, r, l₂, heq, hl₁, hr, hfold⟩
  · rw [hnone] at h
    exact absurd h (by simp)
  · rw [hfold] at h
    obtain ⟨hioid, hicreated, hiid, hiquotes⟩ := initUpd_spec r
    obtain ⟨hoid, hle, hid, hbound⟩ := foldl_stepO_inv o l₂ _ e h
    have hquotes := fun k =>
      foldl_stepO_quotes o l₂ (updateOrderEntry r (initOrderEntry r)) e k h
    have hrmem : r ∈ l := by
      rw [heq]
      exact List.mem_append_right l₁ (List.mem_cons_self r l₂)
    have hrcreated : r.createdAt ≤ e.createdAt := by
      rw [← hicreated]
      exact hle
    refine ⟨hoid.trans (hioid.trans hr), ?_, ?_, ?_⟩
    · rcases hid with ⟨hc, hi⟩ | ⟨r', hr', ho', hc', hi'⟩
      · exact ⟨r, hrmem, hr, by rw [hicreated] at hc; exact hc.symm,
          by rw [hiid] at hi; exact hi.symm⟩
      · refine ⟨r', ?_, ho', hc', hi'⟩
        rw [heq]
        exact List.mem_append_right l₁ (List.mem_cons_of_mem r hr')
    · intro x hx hox
      rw [heq] at hx
      rcases List.mem_append.mp hx with hx | hx
      · exact absurd hox (hl₁ x hx)
      · rcases List.mem_cons.mp hx with rfl | hx
        · exact hrcreated
        · exact hbound x hx hox
    · intro k
      rw [hquotes k, hiquotes k, heq]
      simp only [List.map_append, List.map_cons, List.sum_append, List.sum_cons, if_pos hr]
      have hzero : (l₁.map (fun x => if orderKeyOf x = o
          then x.items.countP (fun it => itemKey it == k) else 0)).sum = 0 := by
        apply List.sum_eq_zero
        intro y hy
        obtain ⟨x, hx, rfl⟩ := List.mem_map.mp hy
        rw [if_neg (hl₁ x hx)]
      omega

/-- Duplicate-free item keys put at most one item on each key. -/
theorem countP_le_one_of_nodup_keys (items : List QuoteItem) (k : String)
    (h : (items.map itemKey).Nodup) :
    items.countP (fun it => itemKey it == k) ≤ 1 := by
  induction items with
  | nil => simp
  | cons it rest ih =>
    simp only [List.map_cons, List.nodup_cons] at h
    rw [List.countP_cons]
    by_cases hk : itemKey it = k
    · have hz : rest.countP (fun it => itemKey it == k) = 0 := by
        rw [List.countP_eq_zero]
        intro x hx hbx
        have hxk : itemKey x = k := by simpa using hbx
        exact h.1 (List.mem_map.mpr ⟨x, hx, hxk.trans hk.symm⟩)
      have hb : (itemKey it == k) = true := beq_iff_eq.mpr hk
      rw [hz, hb]
      simp
    · have hb : (itemKey it == k) = false := beq_eq_false_iff_ne.mpr hk
      rw [hb]
      simpa using ih h.2

/-- Under per-request key uniqueness, summing per-request item counts for one
key equals the number of contributing requests that contain the key. -/
theorem sum_indicator_eq_filter_length (o k : String) (L : List QuoteRequest)
    (huniq : ∀ r ∈ L, ((r.items.map itemKey).Nodup))
    (horder : ∀ r ∈ L, r.orderId ≠ "") :
    (L.map (fun r => if orderKeyOf r = o
      then r.items.countP (fun it => itemKey it == k) else 0)).sum =
    (L.filter (fun r => r.orderId == o &&
      r.items.any (fun it => itemKey it == k))).length := by
  induction L with
  | nil => rfl
  | cons r rest ih =>
    simp only [List.map_cons, List.sum_cons, List.filter_cons]
    have hkey : orderKeyOf r = r.orderId := by
      simp [orderKeyOf, horder r (List.mem_cons_self r rest)]
    have ihr := ih (fun x hx => huniq x (List.mem_cons_of_mem _ hx))
      (fun x hx => horder x (List.mem_cons_of_mem _ hx))
    by_cases ho : r.orderId = o
    · rw [if_pos (hkey.trans ho)]
      by_cases hany : ∃ it ∈ r.items, itemKey it = k
      · have hcnt1 : r.items.countP (fun it => itemKey it == k) = 1 := by
          have hle := countP_le_one_of_nodup_keys r.items k
            (huniq r (List.mem_cons_self r rest))
          have hpos : 0 < r.items.countP (fun it => itemKey it == k) := by
            rw [List.countP_pos_iff]
            obtain ⟨it, hit, hk⟩ := hany
            exact ⟨it, hit, by simp [hk]⟩
          omega
        have hfilt : (r.orderId == o && r.items.any fun it => itemKey it == k) = true := by
          rw [Bool.and_eq_true, beq_iff_eq, List.any_eq_true]
          refine ⟨ho, ?_⟩
          obtain ⟨it, hit, hk⟩ := hany
          exact ⟨it, hit, by simp [hk]⟩
        rw [if_pos hfilt, List.length_cons, hcnt1, ihr]
        omega
      · have hcnt0 : r.items.countP (fun it => itemKey it == k) = 0 := by
          rw [List.countP_eq_zero]
          intro x hx hbx
          exact hany ⟨x, hx, by simpa using hbx⟩
        have hfilt : (r.orderId == o && r.items.any fun it => itemKey it == k) = false := by
          rw [Bool.and_eq_false_iff]
          right
          rw [List.any_eq_false]
          intro it hit hbit
          exact hany ⟨it, hit, by simpa using hbit⟩
        rw [if_neg (by rw [hfilt]; exact Bool.false_ne_true), hcnt0, ihr]
        omega
    · rw [if_neg (fun he => ho (hkey.symm.trans he))]
      have hfilt : (r.orderId == o && r.items.any fun it => itemKey it == k) = false := by
        rw [Bool.and_eq_false_iff]
        left
        exact beq_eq_false_iff_ne.mpr ho
      rw [if_neg (by rw [hfilt]; exact Bool.false_ne_true), ihr]
      omega

/-- `insertDesc` only rearranges. -/
theorem insertDesc_perm (r : QuoteRequest) (l : List QuoteRequest) :
    (insertDesc r l).Perm (r :: l) := by
  induction l with
  | nil => exact List.Perm.refl _
  | cons x xs ih =>
    unfold insertDesc
    by_cases h : x.createdAt < r.createdAt
    · rw [if_pos h]
    · rw [if_neg h]
      exact (List.Perm.cons x ih).trans (List.Perm.swap r x xs)

/-- The descending sort only rearranges. -/
theorem sortByCreatedAtDesc_perm (l : List QuoteRequest) :
    (sortByCreatedAtDesc l).Perm l := by
  induction l with
  | nil => exact List.Perm.refl _
  | cons x xs ih =>
    exact (insertDesc_perm x _).trans (List.Perm.cons x ih)

/-! ## C7 -/

/-- C7: `listAllVendorQuotesGroupedByOrder` produces exactly one entry per
distinct `orderId` of the store (given the schema invariants: non-empty
`orderId`, unique item keys per request); each entry's displayed `createdAt`
is the most recent among its contributing requests and its displayed `_id`
comes from a contributing request achieving that `createdAt`; and for every
product key, the entry's vendor-quote list holds exactly one record per
contributing request containing that product. -/
theorem grouping_by_order_correct (store : List QuoteRequest)
    (huniq : ∀ r ∈ store, ((r.items.map itemKey).Nodup))
    (horder : ∀ r ∈ store, r.orderId ≠ "") :
    ((listAllVendorQuotesGroupedByOrder store).map (·.orderId)).Nodup
    ∧ (∀ o, (∃ e ∈ listAllVendorQuotesGroupedByOrder store, e.orderId = o) ↔
        ∃ r ∈ store, r.orderId = o)
    ∧ ∀ e ∈ listAllVendorQuotesGroupedByOrder store,
        (∃ r ∈ store, r.orderId = e.orderId ∧ r.createdAt = e.createdAt ∧ r.id = e.id)
        ∧ (∀ r ∈ store, r.orderId = e.orderId → r.createdAt ≤ e.createdAt)
        ∧ ∀ k, (quotesAt e.products k).length =
            (store.filter (fun r => r.orderId == e.orderId &&
              r.items.any (fun it => itemKey it == k))).length := by
  have hperm := sortByCreatedAtDesc_perm store
  have hpermset : ∀ r : QuoteRequest, r ∈ sortByCreatedAtDesc store ↔ r ∈ store :=
    fun r => hperm.mem_iff
  have hkeyid : ∀ r ∈ store, orderKeyOf r = r.orderId := by
    intro r hr
    simp [orderKeyOf, horder r hr]
  have hpair : ∀ p ∈ (sortByCreatedAtDesc store).foldl addRequestToMap [],
      (p : String × OrderGroup).2.orderId = p.1 :=
    orderId_eq_key_foldl _ [] (by simp)
  have hnodupkeys : (((sortByCreatedAtDesc store).foldl addRequestToMap []).map (·.1)).Nodup :=
    nodup_keys_foldl_addRequestToMap _ [] (by simp)
  have hout : listAllVendorQuotesGroupedByOrder store =
      ((sortByCreatedAtDesc store).foldl addRequestToMap []).map (·.2) := rfl
  refine ⟨?_, ?_, ?_⟩
  · rw [hout, List.map_map]
    have : ((sortByCreatedAtDesc store).foldl addRequestToMap []).map ((·.orderId) ∘ (·.2)) =
        ((sortByCreatedAtDesc store).foldl addRequestToMap []).map (·.1) :=
      List.map_congr_left hpair
    rw [this]
    exact hnodupkeys
  · intro o
    constructor
    · rintro ⟨e, he, rfl⟩
      rw [hout] at he
      obtain ⟨p, hp, rfl⟩ := List.mem_map.mp he
      have hkey : p.2.orderId = p.1 := hpair p hp
      have : p.2.orderId ∈ ((sortByCreatedAtDesc store).foldl addRequestToMap []).map (·.1) := by
        rw [hkey]
        exact List.mem_map.mpr ⟨p, hp, rfl⟩
      rw [mem_keys_foldl_addRequestToMap] at this
      rcases this with h | ⟨r, hr, hor⟩
      · simp at h
      · have hrs : r ∈ store := (hpermset r).mp hr
        exact ⟨r, hrs, (hkeyid r hrs).symm.trans hor⟩
    · rintro ⟨r, hr, rfl⟩
      have hkeys : r.orderId ∈
          ((sortByCreatedAtDesc store).foldl addRequestToMap []).map (·.1) := by
        rw [mem_keys_foldl_addRequestToMap]
        exact Or.inr ⟨r, (hpermset r).mpr hr, hkeyid r hr⟩
      obtain ⟨p, hp, hpk⟩ := List.mem_map.mp hkeys
      refine ⟨p.2, ?_, ?_⟩
      · rw [hout]
        exact List.mem_map.mpr ⟨p, hp, rfl⟩
      · rw [hpair p hp, hpk]
  · intro e he
    rw [hout] at he
    obtain ⟨p, hp, hpe⟩ := List.mem_map.mp he
    have hkey : p.1 = e.orderId := by rw [← hpe]; exact (hpair p hp).symm
    have hpmem : (e.orderId, e) ∈ (sortByCreatedAtDesc store).foldl addRequestToMap [] := by
      have : p = (e.orderId, e) := Prod.ext hkey hpe
      exact this ▸ hp
    have hfind : mapFind? e.orderId ((sortByCreatedAtDesc store).foldl addRequestToMap []) =
        some e := mapFind?_of_mem_nodup _ _ _ hnodupkeys hpmem
    rw [mapFind?_foldl_addRequestToMap, mapFind?_nil] at hfind
    obtain ⟨_, ⟨r, hr, hor, hrc, hri⟩, hbound, hquotes⟩ :=
      entryFold_spec e.orderId (sortByCreatedAtDesc store) e hfind
    refine ⟨?_, ?_, ?_⟩
    · have hrs : r ∈ store := (hpermset r).mp hr
      exact ⟨r, hrs, (hkeyid r hrs).symm.trans hor, hrc, hri⟩
    · intro x hx hox
      exact hbound x ((hpermset x).mpr hx) ((hkeyid x hx).trans hox)
    · intro k
      rw [hquotes k]
      have hsum : ((sortByCreatedAtDesc store).map (fun r => if orderKeyOf r = e.orderId
          then r.items.countP (fun it => itemKey it == k) else 0)).sum =
          (store.map (fun r => if orderKeyOf r = e.orderId
          then r.items.countP (fun it => itemKey it == k) else 0)).sum :=
        (hperm.map _).sum_eq
      rw [hsum]
      exact sum_indicator_eq_filter_length e.orderId k store huniq horder

/-- The two concrete requests of the C7 witness: same order, different
products, different creation times. -/
def witnessRequestOld : QuoteRequest :=
  { id := "a", orderId := "O1", items := [{ productId := "P", requestedQty := 1 }],
    status := .pending, token := "t1", tokenExpiresAt := some 100, createdAt := 5 }

/-- Second witness request (newer, other product, same order). -/
def witnessRequestNew : QuoteRequest :=
  { id := "b", orderId := "O1", items := [{ productId := "R", requestedQty := 3 }],
    status := .pending, token := "t2", tokenExpiresAt := some 100, createdAt := 9 }

/-- C7 witness: the grouping properties at a concrete two-request store sharing
one `orderId` with different products, plus the concretely evaluated output:
one single order entry carrying both products' vendor-quote lists, displaying
the newest request's `createdAt` and `_id`. -/
theorem grouping_by_order_correct_witness :
    (((listAllVendorQuotesGroupedByOrder [witnessRequestOld, witnessRequestNew]).map
        (·.orderId)).Nodup
      ∧ (∀ o, (∃ e ∈ listAllVendorQuotesGroupedByOrder [witnessRequestOld, witnessRequestNew],
            e.orderId = o) ↔ ∃ r ∈ [witnessRequestOld, witnessRequestNew], r.orderId = o)
      ∧ ∀ e ∈ listAllVendorQuotesGroupedByOrder [witnessRequestOld, witnessRequestNew],
          (∃ r ∈ [witnessRequestOld, witnessRequestNew],
            r.orderId = e.orderId ∧ r.createdAt = e.createdAt ∧ r.id = e.id)
          ∧ (∀ r ∈ [witnessRequestOld, witnessRequestNew],
              r.orderId = e.orderId → r.createdAt ≤ e.createdAt)
          ∧ ∀ k, (quotesAt e.products k).length =
              (([witnessRequestOld, witnessRequestNew]).filter (fun r => r.orderId == e.orderId &&
                r.items.any (fun it => itemKey it == k))).length)
    ∧ (listAllVendorQuotesGroupedByOrder [witnessRequestOld, witnessRequestNew]).length = 1
    ∧ (∀ e ∈ listAllVendorQuotesGroupedByOrder [witnessRequestOld, witnessRequestNew],
        e.orderId = "O1" ∧ e.createdAt = 9 ∧ e.id = "b"
        ∧ (quotesAt e.products "P::").length = 1 ∧ (quotesAt e.products "R::").length = 1) := by
  refine ⟨grouping_by_order_correct [witnessRequestOld, witnessRequestNew]
    (by decide) (by decide), by decide, by decide⟩

end Emart
